import Mathlib

/-!
Verification development for the `openapi-down-convert` converter
(`src/converter.ts`): a shallow embedding of the document model and of the
rewrite passes, followed by theorems about them.

Modelling conventions:
* JSON-like documents are the inductive `Json`; JavaScript objects are
  association lists in insertion order (string keys, unique in any value
  deserialized from YAML/JSON).
* JavaScript property update (`o[k] = v`) replaces the value in place when the
  key exists and appends otherwise (`Json.set`); `delete o[k]` removes the
  entry (`Json.del`).
* Recursive traversals take an explicit fuel argument (the source recursion is
  bounded by the finite document tree; fuel at least the tree depth reproduces
  it exactly, and `deepLe` states that bound).
* The error counter of the converter (`returnCode`, incremented by
  `Converter.error`) is threaded explicitly: visitors return `Json × Nat`
  where the `Nat` is the number of hard errors recorded.
* The document is threaded as a pure value; in-place mutation of the shared
  document graph is reproduced by rebuilding, and reference resolution inside
  a pass (`findSchema`) reads the document as it stood when the pass started.
* Corners where the JavaScript would throw a `TypeError` (for example
  `oneOf.filter` on a non-array) are modelled as leaving the node unchanged;
  each such spot is marked in a comment.
-/

inductive Json where
  | null
  | bool (b : Bool)
  | num (n : Int)
  | str (s : String)
  | arr (elems : List Json)
  | obj (entries : List (String × Json))

/-- Association-list lookup, first entry wins (JavaScript property lookup). -/
def getEntry : List (String × Json) → String → Option Json
  | [], _ => none
  | (k1, v) :: rest, k => if k1 = k then some v else getEntry rest k

/-- JavaScript `o[k] = v`: replace in place if present, append otherwise. -/
def setEntry : List (String × Json) → String → Json → List (String × Json)
  | [], k, v => [(k, v)]
  | (k1, v1) :: rest, k, v =>
      if k1 = k then (k, v) :: rest else (k1, v1) :: setEntry rest k v

/-- JavaScript `delete o[k]`. -/
def delEntry : List (String × Json) → String → List (String × Json)
  | [], _ => []
  | (k1, v) :: rest, k => if k1 = k then delEntry rest k else (k1, v) :: delEntry rest k

/-- Property lookup on a value; non-objects have no properties (indexing them
in JavaScript yields `undefined`, i.e. `none`). -/
def Json.lookup : Json → String → Option Json
  | .obj l, k => getEntry l k
  | _, _ => none

def Json.set : Json → String → Json → Json
  | .obj l, k, v => .obj (setEntry l k v)
  | j, _, _ => j

def Json.del : Json → String → Json
  | .obj l, k => .obj (delEntry l k)
  | j, _ => j

def Json.hasKey (j : Json) (k : String) : Bool :=
  (j.lookup k).isSome

def Json.keys : Json → List String
  | .obj l => l.map (fun kv => kv.1)
  | _ => []

/-- JavaScript truthiness of a (JSON-representable) value. -/
def Json.truthy : Json → Bool
  | .null => false
  | .bool b => b
  | .num n => n != 0
  | .str s => s ≠ ""
  | .arr _ => true
  | .obj _ => true

/-- A value `typeof x === 'object' && x !== null`, i.e. an array or mapping. -/
def Json.isContainer : Json → Bool
  | .obj _ => true
  | .arr _ => true
  | _ => false

/-- Does the value equal a given string (JavaScript `x === 's'`)? -/
def isStrEq (j : Json) (s : String) : Bool :=
  match j with
  | .str x => x = s
  | _ => false

/-- JavaScript `a || b` on possibly-undefined values. -/
def jsOr (a b : Option Json) : Option Json :=
  match a with
  | some v => if v.truthy then some v else b
  | none => b

/-- SameValueZero comparison as used by a JavaScript `Set`, for primitive
values.  Containers compare by object identity in JavaScript; every container
reaching the one use site (`findSchemaObjectType`) is a freshly produced
value, so containers are modelled as never equal. -/
def jsPrimEq : Json → Json → Bool
  | .null, .null => true
  | .bool a, .bool b => a = b
  | .num a, .num b => a = b
  | .str a, .str b => a = b
  | _, _ => false

/-- Insertion-order deduplication, as `[...new Set(xs)]`. -/
def dedupSVZ (l : List Json) : List Json :=
  l.foldl (fun acc x => if acc.any (fun y => jsPrimEq y x) then acc else acc ++ [x]) []

/-- A `oneOf` member whose only key is `type` with value `'null'`
(`keys.length === 1 && keys.includes('type') && variant['type'] === 'null'`). -/
def isNullMarker : Json → Bool
  | .obj [(k, v)] => k = "type" && isStrEq v "null"
  | _ => false

/-- Modelled from the spec: `RefVisitor.isRef` — a Reference Object is a
mapping carrying a `$ref` key whose value is a URI string. -/
def isRef (j : Json) : Bool :=
  match j.lookup "$ref" with
  | some (.str _) => true
  | _ => false

/-- Depth bound: `deepLe f j` holds when every path of containers in `j` has
length at most `f`.  Fuel at least this bound makes the fuelled traversals
below agree with the unbounded source recursion. -/
def deepLe : Nat → Json → Bool
  | 0, .obj _ => false
  | 0, .arr _ => false
  | 0, _ => true
  | f+1, .obj l => l.all (fun kv => deepLe f kv.2)
  | f+1, .arr l => l.all (fun e => deepLe f e)
  | _+1, _ => true

/-- Does `p` hold of every mapping node (the node itself included) within the
given depth bound? -/
def allNodesHold (p : Json → Bool) : Nat → Json → Bool
  | 0, .obj _ => false
  | 0, .arr _ => false
  | 0, _ => true
  | f+1, .obj l => p (.obj l) && l.all (fun kv => allNodesHold p f kv.2)
  | f+1, .arr l => l.all (fun e => allNodesHold p f e)
  | _+1, _ => true

/-- Modelled from the spec: `RefVisitor.walkObject` (the file `RefVisitor.ts`
is imported by the converter but is not part of the sources here; §4.1 of the
specification is its contract).  For a mapping, first recursively walk each
value that is itself a mapping or sequence, replacing it with the walked
result, then invoke the transform on the walked mapping and return its result;
for a sequence, walk each element in place; scalars are returned unchanged.
The `Nat` component accumulates the hard errors recorded by the transform. -/
def walkObject (t : Json → Json × Nat) : Nat → Json → Json × Nat
  | 0, j => (j, 0)
  | f+1, .obj l =>
      let w := l.foldr
        (fun kv acc =>
          let r := if kv.2.isContainer then walkObject t f kv.2 else (kv.2, 0)
          ((kv.1, r.1) :: acc.1, r.2 + acc.2))
        (([] : List (String × Json)), 0)
      let r := t (.obj w.1)
      (r.1, w.2 + r.2)
  | f+1, .arr l =>
      let w := l.foldr
        (fun e acc =>
          let r := walkObject t f e
          (r.1 :: acc.1, r.2 + acc.2))
        (([] : List Json), 0)
      (.arr w.1, w.2)
  | _+1, j => (j, 0)

/-- Modelled from the spec: `RefVisitor.visitRefObjects` (§4.2) — walk the
whole document and apply the reference visitor to every mapping that carries a
`$ref` key (with string value, per the Reference Object definition of §3). -/
def visitRefObjects (rv : Json → Json × Nat) (fuel : Nat) (root : Json) : Json × Nat :=
  walkObject (fun m => if isRef m then rv m else (m, 0)) fuel root

/-- Apply a visitor to every value of a mapping, accumulating error counts. -/
def mapEntriesCount (sv : Json → Json × Nat) (l : List (String × Json)) :
    List (String × Json) × Nat :=
  l.foldr (fun kv acc => let r := sv kv.2; ((kv.1, r.1) :: acc.1, r.2 + acc.2)) ([], 0)

/-- Apply a visitor to every element of a sequence, accumulating error counts. -/
def mapElemsCount (sv : Json → Json × Nat) (l : List Json) : List Json × Nat :=
  l.foldr (fun e acc => let r := sv e; (r.1 :: acc.1, r.2 + acc.2)) ([], 0)

/-- Modelled from the spec: the transform of `RefVisitor.visitSchemaObjects`
(§4.3) — on a mapping with a key literally named `schema`, invoke the schema
visitor on that value; on a mapping with a key literally named `schemas`,
invoke the schema visitor on each member's value (a `for/in` loop, which on an
array value iterates its elements). -/
def schemaLocator (sv : Json → Json × Nat) : Json → Json × Nat
  | .obj l =>
      let s1 :=
        match getEntry l "schema" with
        | some v => let r := sv v; (setEntry l "schema" r.1, r.2)
        | none => (l, 0)
      let s2 :=
        match getEntry s1.1 "schemas" with
        | some (.obj m) =>
            let r := mapEntriesCount sv m
            (setEntry s1.1 "schemas" (.obj r.1), r.2)
        | some (.arr a) =>
            let r := mapElemsCount sv a
            (setEntry s1.1 "schemas" (.arr r.1), r.2)
        | _ => (s1.1, 0)
      (.obj s2.1, s1.2 + s2.2)
  | x => (x, 0)

/-- Modelled from the spec: `RefVisitor.visitSchemaObjects` (§4.3). -/
def visitSchemaObjects (sv : Json → Json × Nat) (fuel : Nat) (root : Json) : Json × Nat :=
  walkObject (schemaLocator sv) fuel root

/-- `Converter.walkNestedSchemaObjects`: for each key of the schema whose value
is a non-null object, replace the value with `walkObject(value, visitor)`. -/
def walkNestedSchemaObjects (visitor : Json → Json × Nat) (fuel : Nat) : Json → Json × Nat
  | .obj l =>
      let w := l.foldr
        (fun kv acc =>
          let r := if kv.2.isContainer then walkObject visitor fuel kv.2 else (kv.2, 0)
          ((kv.1, r.1) :: acc.1, r.2 + acc.2))
        (([] : List (String × Json)), 0)
      (.obj w.1, w.2)
  | .arr l =>
      let w := l.foldr
        (fun e acc =>
          let r := if e.isContainer then walkObject visitor fuel e else (e, 0)
          (r.1 :: acc.1, r.2 + acc.2))
        (([] : List Json), 0)
      (.arr w.1, w.2)
  | j => (j, 0)

/-- The self-recursing schema visitor shape shared by most converter passes:
perform the pass-specific step on the schema, then
`walkNestedSchemaObjects(schema, schemaVisitor)`. -/
def mkSchemaVisitor (step : Json → Json × Nat) : Nat → Json → Json × Nat
  | 0, s => (s, 0)
  | f+1, s =>
      let r := step s
      let w := walkNestedSchemaObjects (mkSchemaVisitor step f) f r.1
      (w.1, r.2 + w.2)

/-- JavaScript `ref.startsWith(p) && ref.slice(p.length)`, over the underlying
character lists: the remainder of `ref` after `p` when `p` is a leading
piece of `ref`, `none` otherwise. -/
def strTail (p ref : String) : Option String :=
  if ref.data.take p.data.length = p.data then some ⟨ref.data.drop p.data.length⟩
  else none

/-- `Converter.findSchema`: resolve a `#/components/schemas/<name>` reference
against the document (`schemaName` is the truthy remainder of the prefix
match; the chain `components && components['schemas']` short-circuits on
falsy values). -/
def findSchema (doc : Json) (ref : String) : Option Json :=
  match strTail "#/components/schemas/" ref with
  | some name =>
      if name ≠ "" then
        match doc.lookup "components" with
        | some comps =>
            if comps.truthy then
              match comps.lookup "schemas" with
              | some schemas =>
                  if schemas.truthy then schemas.lookup name else none
              | none => none
            else none
        | none => none
      else none
  | none => none

/-- `Converter.findSchemaObjectType`: the schema's own `type` if present;
otherwise for `allOf`/`anyOf`/`oneOf` (chained with `||`) the single element
of the deduplicated defined member types; otherwise resolve a truthy `$ref`
target and recurse.  `none` is the JavaScript `undefined`.  Fuel bounds the
recursion (the source recursion is unbounded and can loop on cyclic
references); a non-array `variants` value would raise a `TypeError` in the
source and is modelled as `undefined`. -/
def findSchemaObjectType (doc : Json) : Nat → Json → Option Json
  | 0, _ => none
  | f+1, node =>
      match node.lookup "type" with
      | some tv => some tv
      | none =>
          if node.hasKey "allOf" || node.hasKey "anyOf" || node.hasKey "oneOf" then
            match jsOr (jsOr (node.lookup "allOf") (node.lookup "anyOf")) (node.lookup "oneOf") with
            | some (.arr vs) =>
                let uniq := dedupSVZ ((vs.map (findSchemaObjectType doc f)).filterMap id)
                match uniq with
                | [u] => some u
                | _ => none
            | _ => none
          else if isRef node then
            match node.lookup "$ref" with
            | some (.str r) =>
                match findSchema doc r with
                | some resolved =>
                    if resolved.truthy then findSchemaObjectType doc f resolved else none
                | none => none
            | _ => none
          else none

/-- The step of `Converter.convertConstToEnum`: replace a truthy `const: c`
with `enum: [c]` (the source guard is `if (schema['const'])`, so a falsy
constant is left alone). -/
def convertConstToEnumStep (s : Json) : Json × Nat :=
  match s.lookup "const" with
  | some c => if c.truthy then ((s.del "const").set "enum" (.arr [c]), 0) else (s, 0)
  | none => (s, 0)

/-- The step of `Converter.convertNullableTypeArray`: a 2-element `type` array
containing `'null'` becomes the non-null type plus `nullable: true`.  In the
corner `type: ['null','null']` the source assigns `undefined` to `type`; that
assignment is modelled as `type: null`. -/
def convertNullableTypeArrayStep (s : Json) : Json × Nat :=
  match s.lookup "type" with
  | some (.arr ts) =>
      if ts.length = 2 && ts.any (fun t => isStrEq t "null") then
        let nonNull := (ts.filter (fun t => !isStrEq t "null")).headD .null
        (((s.set "type" nonNull).set "nullable" (.bool true)), 0)
      else (s, 0)
  | _ => (s, 0)

/-- The step of `Converter.convertJsonSchemaContentEncoding` on a
`type: string` schema carrying `contentEncoding` (the second component counts
the hard errors recorded by `Converter.error`). -/
def contentEncodingStep (s : Json) : Json × Nat :=
  if isStrEq ((s.lookup "type").getD .null) "string" && s.hasKey "contentEncoding" then
    if isStrEq ((s.lookup "contentEncoding").getD .null) "base64" then
      match s.lookup "format" with
      | some fv => if isStrEq fv "byte" then (s.del "contentEncoding", 0) else (s, 1)
      | none => ((s.del "contentEncoding").set "format" (.str "byte"), 0)
    else (s, 1)
  else (s, 0)

/-- The step of `Converter.convertJsonSchemaContentMediaType` on a
`type: string` schema with `contentMediaType: application/octet-stream`. -/
def contentMediaTypeStep (s : Json) : Json × Nat :=
  if isStrEq ((s.lookup "type").getD .null) "string" &&
      s.hasKey "contentMediaType" &&
      isStrEq ((s.lookup "contentMediaType").getD .null) "application/octet-stream" then
    match s.lookup "format" with
    | some fv => if isStrEq fv "binary" then (s.del "contentMediaType", 0) else (s, 1)
    | none => ((s.del "contentMediaType").set "format" (.str "binary"), 0)
  else (s, 0)

/-- Keywords removed by `Converter.removeUnsupportedSchemaKeywords`. -/
def keywordsToRemove : List String :=
  ["$id", "$schema", "unevaluatedProperties", "contentMediaType",
   "patternProperties", "propertyNames"]

/-- The step of `Converter.removeUnsupportedSchemaKeywords`. -/
def removeKeywordsStep (s : Json) : Json × Nat :=
  (keywordsToRemove.foldl (fun a k => a.del k) s, 0)

/-- The step of `Converter.deleteSchema$comment`. -/
def deleteCommentStep (s : Json) : Json × Nat :=
  if s.hasKey "$comment" then (s.del "$comment", 0) else (s, 0)

/-- The step of `Converter.renameSchema$comment`. -/
def renameCommentStep (s : Json) : Json × Nat :=
  match s.lookup "$comment" with
  | some c => ((s.set "x-comment" c).del "$comment", 0)
  | none => (s, 0)

/-- The array member of the nullable-`oneOf` inlining case:
`isRef(nonTypeNull[0]) ? this.findSchema(nonTypeNull[0]['$ref']) : nonTypeNull[0]`. -/
def resolveOneOfMember (doc : Json) (m : Json) : Option Json :=
  if isRef m then
    match m.lookup "$ref" with
    | some (.str r) => findSchema doc r
    | _ => none
  else some m

/-- The step of `Converter.convertNullableOneOf` (lines 304-329 of the
source): partition `oneOf` into null markers and the rest; when a marker was
removed, infer the unified type of `{ oneOf: nonTypeNull }`; inline a single
array member (resolving a reference member first), otherwise replace `oneOf`
by `allOf: [ { nullable: true, type }, { oneOf: nonTypeNull } ]` when the
type is truthy.  `doc` is the document used for reference resolution (as it
stood when the pass started) and `fuel` bounds the type inference.  A
non-array `oneOf` value and an unresolvable reference member would raise in
the source (`oneOf.filter` / `Object.keys(undefined)`); both are modelled as
leaving the node unchanged. -/
def convertNullableOneOfStep (doc : Json) (fuel : Nat) (s : Json) : Json × Nat :=
  match s.lookup "oneOf" with
  | some (.arr members) =>
      let nonTypeNull := members.filter (fun v => !isNullMarker v)
      if nonTypeNull.length < members.length then
        match findSchemaObjectType doc fuel (.obj [("oneOf", .arr nonTypeNull)]) with
        | some t =>
            if isStrEq t "array" && nonTypeNull.length == 1 then
              match resolveOneOfMember doc (nonTypeNull.headD .null) with
              | some (.obj arrEntries) =>
                  let base := s.del "oneOf"
                  let copied := arrEntries.foldl (fun a kv => a.set kv.1 kv.2) base
                  (copied.set "nullable" (.bool true), 0)
              | some _ =>
                  -- `Object.keys` on a primitive yields no own keys (string
                  -- index keys are not modelled), so nothing is copied
                  ((s.del "oneOf").set "nullable" (.bool true), 0)
              | none => (s, 0)
            else if t.truthy then
              ((s.del "oneOf").set "allOf"
                  (.arr [.obj [("nullable", .bool true), ("type", t)],
                         .obj [("oneOf", .arr nonTypeNull)]]), 0)
            else (s, 0)
        | none => (s, 0)
      else (s, 0)
  | _ => (s, 0)

/-- Is the first example a non-null object with an `id` property? -/
def hasIdObj : Json → Bool
  | .obj l => (getEntry l "id").isSome
  | _ => false

/-- The body of one `for/in` iteration of the visitor of
`Converter.convertJsonSchemaExamples`, as a fold step over the snapshot of
keys taken when the loop starts: a key deleted meanwhile is skipped
(`getEntry` misses), a non-container value is ignored, a non-empty `examples`
array is deleted with its first element stored as `example` — unless
`deleteExampleWithId` is set and that element is a mapping with an `id` key,
in which case nothing is stored — and every other container value is replaced
by `walkObject(value, schemaVisitor)` (`w` is that recursive walk). -/
def examplesFoldStep (delOpt : Bool) (w : Json → Json × Nat)
    (st : List (String × Json) × Nat) (key : String) : List (String × Json) × Nat :=
  match getEntry st.1 key with
  | none => st
  | some v =>
      if v.isContainer then
        if key = "examples" then
          match v with
          | .arr (first :: _) =>
              let st1 := delEntry st.1 "examples"
              if delOpt && hasIdObj first then (st1, st.2)
              else (setEntry st1 "example" first, st.2)
          | _ => st
        else
          let r := w v
          (setEntry st.1 key r.1, st.2 + r.2)
      else st

/-- The schema visitor of `Converter.convertJsonSchemaExamples`.  It iterates
the schema's own keys (`for/in` over the keys present when the loop starts;
keys added during the loop are not visited). -/
def examplesVisit (delOpt : Bool) : Nat → Json → Json × Nat
  | 0, s => (s, 0)
  | f+1, .obj l =>
      let r := (l.map (fun kv => kv.1)).foldl
        (examplesFoldStep delOpt (walkObject (examplesVisit delOpt f) f)) (l, 0)
      (.obj r.1, r.2)
  | f+1, .arr l =>
      let w := l.foldr
        (fun e acc =>
          let r := if e.isContainer then walkObject (examplesVisit delOpt f) f e else (e, 0)
          (r.1 :: acc.1, r.2 + acc.2))
        (([] : List Json), 0)
      (.arr w.1, w.2)
  | _+1, s => (s, 0)

/-- `Converter.convertJsonSchemaExamples`. -/
def convertJsonSchemaExamples (delOpt : Bool) (fuel : Nat) (doc : Json) : Json × Nat :=
  visitSchemaObjects (examplesVisit delOpt fuel) fuel doc

/-- `Converter.convertConstToEnum`. -/
def convertConstToEnum (fuel : Nat) (doc : Json) : Json × Nat :=
  visitSchemaObjects (mkSchemaVisitor convertConstToEnumStep fuel) fuel doc

/-- `Converter.convertNullableTypeArray`. -/
def convertNullableTypeArray (fuel : Nat) (doc : Json) : Json × Nat :=
  visitSchemaObjects (mkSchemaVisitor convertNullableTypeArrayStep fuel) fuel doc

/-- `Converter.convertJsonSchemaContentEncoding`. -/
def convertJsonSchemaContentEncoding (fuel : Nat) (doc : Json) : Json × Nat :=
  visitSchemaObjects (mkSchemaVisitor contentEncodingStep fuel) fuel doc

/-- `Converter.convertJsonSchemaContentMediaType`. -/
def convertJsonSchemaContentMediaType (fuel : Nat) (doc : Json) : Json × Nat :=
  visitSchemaObjects (mkSchemaVisitor contentMediaTypeStep fuel) fuel doc

/-- `Converter.convertNullableOneOf` (reference resolution reads the document
as it stood when the pass started). -/
def convertNullableOneOf (fuel : Nat) (doc : Json) : Json × Nat :=
  visitSchemaObjects (mkSchemaVisitor (convertNullableOneOfStep doc fuel) fuel) fuel doc

/-- `Converter.removeUnsupportedSchemaKeywords`. -/
def removeUnsupportedSchemaKeywords (fuel : Nat) (doc : Json) : Json × Nat :=
  visitSchemaObjects (mkSchemaVisitor removeKeywordsStep fuel) fuel doc

/-- `Converter.renameSchema$comment`. -/
def renameSchemaComment (fuel : Nat) (doc : Json) : Json × Nat :=
  visitSchemaObjects (mkSchemaVisitor renameCommentStep fuel) fuel doc

/-- `Converter.deleteSchema$comment`. -/
def deleteSchemaComment (fuel : Nat) (doc : Json) : Json × Nat :=
  visitSchemaObjects (mkSchemaVisitor deleteCommentStep fuel) fuel doc

/-- The reference visitor of `Converter.simplifyNonSchemaRef`: keep a one-key
reference; otherwise delete every sibling of `$ref`. -/
def stripRefT : Json → Json × Nat
  | .obj l =>
      if l.length = 1 then (.obj l, 0)
      else (.obj (l.filter (fun kv => kv.1 = "$ref")), 0)
  | x => (x, 0)

/-- `Converter.simplifyNonSchemaRef`. -/
def simplifyNonSchemaRef (fuel : Nat) (doc : Json) : Json × Nat :=
  visitRefObjects stripRefT fuel doc

/-- The reference visitor of `Converter.convertSchemaRef`: a reference with
siblings gets `allOf: [ { $ref } ]` and loses its `$ref` key. -/
def refToAllOfT : Json → Json × Nat
  | .obj l =>
      if l.length = 1 then (.obj l, 0)
      else
        ((Json.obj l).set "allOf"
            (.arr [.obj [("$ref", (getEntry l "$ref").getD .null)]]) |>.del "$ref", 0)
  | x => (x, 0)

/-- `Converter.convertSchemaRef` (runs only when `allOfTransform` is set): in
every schema, replace a sibling-carrying `$ref` with an `allOf` wrapper. -/
def convertSchemaRef (allOfTransform : Bool) (fuel : Nat) (doc : Json) : Json × Nat :=
  if allOfTransform then
    visitSchemaObjects (fun schema => visitRefObjects refToAllOfT fuel schema) fuel doc
  else (doc, 0)

/-- `Converter.HTTP_METHODS`. -/
def HTTP_METHODS : List String :=
  ["delete", "get", "head", "options", "patch", "post", "put", "trace"]

/-- The default description of a scope missing from the scope-description
mapping: `TODO: describe the '<scope>' scope`. -/
def todoScope (sc : String) : String :=
  "TODO: describe the \x27" ++ sc ++ "\x27 scope"

/-- `this.scopeDescriptions[scope] || "TODO: describe the '<scope>' scope"`. -/
def scopeDesc (scopeDescs : Json) (sc : String) : Json :=
  match scopeDescs.lookup sc with
  | some v => if v.truthy then v else .str (todoScope sc)
  | none => .str (todoScope sc)

/-- The `oauth2Scopes` closure of `Converter.convertSecuritySchemes`: collect
every scope listed under the scheme's name in the `security` arrays of the
operations found under the eight HTTP method keys of each path item, mapping
each scope to its description.  A truthy non-array `security` or requirement
value would raise in the source (`forEach` on a non-array) and is modelled as
contributing nothing; non-string scope values (which JavaScript would coerce
into property names) are not modelled and are skipped. -/
def scopesOfReqs (scopeDescs : Json) (scopes : Json) (reqs : List Json) : Json :=
  reqs.foldl
    (fun scopes scope =>
      match scope with
      | .str sc => scopes.set sc (scopeDesc scopeDescs sc)
      | _ => scopes)
    scopes

/-- One `security` entry of an operation: the requirement under the scheme's
name, when truthy, contributes its scope list. -/
def scopesOfSec (scopeDescs : Json) (schemeName : String) (scopes : Json)
    (sec : List Json) : Json :=
  sec.foldl
    (fun scopes s =>
      let requirement := (s.lookup schemeName).getD .null
      if requirement.truthy then
        match requirement with
        | .arr reqs => scopesOfReqs scopeDescs scopes reqs
        | _ => scopes
      else scopes)
    scopes

/-- One operation: `(operation?.security || [])`, then each entry. -/
def scopesOfOp (scopeDescs : Json) (schemeName : String) (scopes : Json)
    (operation : Json) : Json :=
  match operation.lookup "security" with
  | some (.arr l) => scopesOfSec scopeDescs schemeName scopes l
  | _ => scopes

/-- One path item: only the keys among the eight HTTP methods are operations;
`security` under any other key is ignored. -/
def scopesOfPathItem (scopeDescs : Json) (schemeName : String) (scopes : Json)
    (pathItem : Json) : Json :=
  ((pathItem.keys).filter (fun op => HTTP_METHODS.contains op)).foldl
    (fun scopes m => scopesOfOp scopeDescs schemeName scopes ((pathItem.lookup m).getD .null))
    scopes

def oauth2Scopes (doc : Json) (scopeDescs : Json) (schemeName : String) : Json :=
  let paths := (doc.lookup "paths").getD .null
  (paths.keys).foldl
    (fun scopes pathKey =>
      scopesOfPathItem scopeDescs schemeName scopes ((paths.lookup pathKey).getD .null))
    (Json.obj [])

/-- String interpolation of a value into a template literal (approximate for
containers, exact for primitives; only the `openIdConnectUrl` value reaches
this). -/
def jsDisplay : Json → String
  | .null => "null"
  | .bool b => if b then "true" else "false"
  | .num n => toString n
  | .str s => s
  | .arr _ => ""
  | .obj _ => "[object Object]"

/-- The description written onto a converted `openIdConnect` scheme (the
template literal of the source, with its embedded newlines and indentation). -/
def oidcDescription (url : String) : String :=
  "OAuth2 Authorization Code Flow. The client may\n          GET the OpenID Connect configuration JSON from `"
    ++ url ++
    "`\n          to get the correct `authorizationUrl` and `tokenUrl`."

/-- `Converter.convertSecuritySchemes` applied to one scheme: if its `type` is
`openIdConnect`, rewrite it to an `oauth2` authorization-code scheme whose
scopes are collected from the document's operations. -/
def convertOneScheme (doc scopeDescs : Json) (authUrl tokUrl : String)
    (schemeName : String) (scheme : Json) : Json :=
  if isStrEq ((scheme.lookup "type").getD .null) "openIdConnect" then
    let url := jsDisplay ((scheme.lookup "openIdConnectUrl").getD .null)
    ((((scheme.set "type" (.str "oauth2")).set
        "description" (.str (oidcDescription url))).del
        "openIdConnectUrl").set
      "flows"
      (.obj [("authorizationCode",
        .obj [("authorizationUrl", .str authUrl),
              ("tokenUrl", .str tokUrl),
              ("scopes", oauth2Scopes doc scopeDescs schemeName)])]))
  else scheme

/-- `Converter.convertSecuritySchemes`: iterate the schemes of
`components.securitySchemes` (falsy chain links mean no schemes) and rewrite
each `openIdConnect` scheme in place. -/
def convertSecuritySchemes (scopeDescs : Json) (authUrl tokUrl : String) (doc : Json) : Json :=
  match doc.lookup "components" with
  | some comps =>
      if comps.truthy then
        match comps.lookup "securitySchemes" with
        | some (.obj schemes) =>
            let schemes2 := schemes.map
              (fun kv => (kv.1, convertOneScheme doc scopeDescs authUrl tokUrl kv.1 kv.2))
            doc.set "components" (comps.set "securitySchemes" (.obj schemes2))
        | _ => doc
      else doc
  | none => doc

/-- `Converter.removeWebhooksObject`. -/
def removeWebhooksObject (doc : Json) : Json :=
  doc.del "webhooks"

/-- `Converter.removeLicenseIdentifier`: delete a truthy
`info.license.identifier`. -/
def removeLicenseIdentifier (doc : Json) : Json :=
  match doc.lookup "info" with
  | some info =>
      match info.lookup "license" with
      | some lic =>
          match lic.lookup "identifier" with
          | some idv =>
              if idv.truthy then doc.set "info" (info.set "license" (lic.del "identifier"))
              else doc
          | none => doc
      | none => doc
  | none => doc

/-- The options of the `Converter` constructor after defaulting (`verbose`
only drives logging and is not modelled; `scopeDescriptions` is the Scope
Mapping loaded from `scopeDescriptionFile`, `none` when no file was given). -/
structure ConverterOptions where
  deleteExampleWithId : Bool
  allOfTransform : Bool
  authorizationUrl : String
  tokenUrl : String
  scopeDescriptions : Option Json
  convertSchemaComments : Bool

def defaultOptions : ConverterOptions :=
  ⟨false, false, "https://www.example.com/oauth2/authorize",
   "https://www.example.com/oauth2/token", none, false⟩

/-- `Converter.convert`: the ordered pass pipeline over (a deep copy of) the
input document.  The `Nat` component is the final `returnCode`, the number of
hard errors recorded across all passes. -/
def convert (opts : ConverterOptions) (fuel : Nat) (doc : Json) : Json × Nat :=
  let d0 := doc.set "openapi" (.str "3.0.3")
  let d1 := removeLicenseIdentifier d0
  let r2 := convertSchemaRef opts.allOfTransform fuel d1
  let r3 := simplifyNonSchemaRef fuel r2.1
  let d4 :=
    match opts.scopeDescriptions with
    | some sd => convertSecuritySchemes sd opts.authorizationUrl opts.tokenUrl r3.1
    | none => r3.1
  let r5 := convertJsonSchemaExamples opts.deleteExampleWithId fuel d4
  let r6 := convertJsonSchemaContentEncoding fuel r5.1
  let r7 := convertJsonSchemaContentMediaType fuel r6.1
  let r8 := convertConstToEnum fuel r7.1
  let r9 := convertNullableTypeArray fuel r8.1
  let r10 := convertNullableOneOf fuel r9.1
  let d11 := removeWebhooksObject r10.1
  let r12 := removeUnsupportedSchemaKeywords fuel d11
  let r13 :=
    if opts.convertSchemaComments then renameSchemaComment fuel r12.1
    else deleteSchemaComment fuel r12.1
  (r13.1, r2.2 + r3.2 + r5.2 + r6.2 + r7.2 + r8.2 + r9.2 + r10.2 + r12.2 + r13.2)

/-- The exit behaviour of `Converter.convert`: when any pass recorded a hard
error the call throws `Cannot down convert this OpenAPI definition.` after
all passes have run; otherwise it returns the transformed document. -/
def convertExcept (opts : ConverterOptions) (fuel : Nat) (doc : Json) : Except String Json :=
  let r := convert opts fuel doc
  if r.2 > 0 then .error "Cannot down convert this OpenAPI definition."
  else .ok r.1

/-! Concrete documents used by the example conjuncts and witnesses. -/

/-- The nullable-union example of the specification:
`{ oneOf: [ {type: 'null'}, {type: 'string', maxLength: 5} ] }`. -/
def c1ExampleSchema : Json :=
  .obj [("oneOf", .arr [.obj [("type", .str "null")],
                        .obj [("type", .str "string"), ("maxLength", .num 5)]])]

/-- A document holding the nullable-union example under `components.schemas`. -/
def c1ExampleDoc : Json :=
  .obj [("components", .obj [("schemas", .obj [("s", c1ExampleSchema)])])]

/-- The array-inlining example of the specification:
`{ oneOf: [ {type:'null'}, {type:'array', items:{type:'string'}} ] }`. -/
def c2ExampleSchema : Json :=
  .obj [("oneOf", .arr [.obj [("type", .str "null")],
                        .obj [("type", .str "array"),
                              ("items", .obj [("type", .str "string")])]])]

/-- A document holding the array-inlining example under `components.schemas`. -/
def c2ExampleDoc : Json :=
  .obj [("components", .obj [("schemas", .obj [("s", c2ExampleSchema)])])]

/-- The result the specification promises for the nullable-union example. -/
def c1ExpectedDoc : Json :=
  .obj [("components", .obj [("schemas", .obj [("s",
    .obj [("allOf", .arr [.obj [("nullable", .bool true), ("type", .str "string")],
                          .obj [("oneOf", .arr [.obj [("type", .str "string"),
                                                      ("maxLength", .num 5)]])]])])])])]

/-- The result the specification promises for the array-inlining example. -/
def c2ExpectedDoc : Json :=
  .obj [("components", .obj [("schemas", .obj [("s",
    .obj [("type", .str "array"), ("items", .obj [("type", .str "string")]),
          ("nullable", .bool true)])])])]

/-- A document with a named array schema, used to exercise reference
resolution in type inference. -/
def c3RefDoc : Json :=
  .obj [("components", .obj [("schemas", .obj [("A", .obj [("type", .str "array")])])])]

/-- Follow a path of keys through nested mappings. -/
def getPath : Json → List String → Option Json
  | j, [] => some j
  | j, k :: ks =>
      match j.lookup k with
      | some v => getPath v ks
      | none => none

/-- Keys of a mapping are pairwise distinct (true of every value deserialized
from JSON or YAML). -/
def keysNodup : Json → Bool
  | .obj l => decide ((l.map (fun kv => kv.1)).Nodup)
  | _ => true

/-- The reference invariant after reference rewriting: within the depth bound,
every mapping that carries a string-valued `$ref` key has exactly one key. -/
def refsSimplified : Nat → Json → Bool
  | 0, .obj _ => false
  | 0, .arr _ => false
  | 0, _ => true
  | f+1, .obj l =>
      (!isRef (.obj l) || l.length == 1) && l.all (fun kv => refsSimplified f kv.2)
  | f+1, .arr l => l.all (fun e => refsSimplified f e)
  | _+1, _ => true

/-- A mapping free of the 3.1-only constructs rewritten by the pipeline: a
string-valued `$ref` has no siblings, `examples` is not a non-empty array,
none of `const`, `contentEncoding`, `contentMediaType`, `$comment` and the
unsupported schema keywords is present, `type` is not an array, and a `oneOf`
is an array without null markers. -/
def plainNode : Json → Bool
  | .obj l =>
      (!isRef (.obj l) || l.length == 1)
      && (match getEntry l "examples" with
          | some (.arr (_ :: _)) => false
          | _ => true)
      && (getEntry l "const").isNone
      && (getEntry l "contentEncoding").isNone
      && (getEntry l "contentMediaType").isNone
      && (getEntry l "$comment").isNone
      && (getEntry l "$id").isNone
      && (getEntry l "$schema").isNone
      && (getEntry l "unevaluatedProperties").isNone
      && (getEntry l "patternProperties").isNone
      && (getEntry l "propertyNames").isNone
      && (match getEntry l "type" with
          | some (.arr _) => false
          | _ => true)
      && (match getEntry l "oneOf" with
          | some (.arr ms) => ms.all (fun v => !isNullMarker v)
          | some _ => false
          | none => true)
  | _ => true

/-- Root-level conditions for an already-3.0 document: no `webhooks` member,
no truthy `info.license.identifier`, and the root is not itself a Reference
Object. -/
def rootPlain (doc : Json) : Bool :=
  (doc.lookup "webhooks").isNone
  && (doc.lookup "$ref").isNone
  && (match doc.lookup "info" with
      | some info =>
          match info.lookup "license" with
          | some lic =>
              match lic.lookup "identifier" with
              | some idv => !idv.truthy
              | none => true
          | none => true
      | none => true)

/-- A schema whose `example` member holds a `const` mapping — the pass
recursion reaches it even though `example` is not a structural keyword. -/
def c5CounterDoc : Json :=
  .obj [("components", .obj [("schemas", .obj [("A",
    .obj [("example", .obj [("const", .num 5)])])])])]

/-- A schema with a pre-existing `example` key next to an `examples` array
whose first element carries an `id`. -/
def c7CounterDoc : Json :=
  .obj [("components", .obj [("schemas", .obj [("A",
    .obj [("examples", .arr [.obj [("id", .num 1)]]), ("example", .num 5)])])])]

/-- The specification's sibling-carrying Reference Object in a non-schema
position (a parameter of an operation). -/
def c4PlainRefDoc : Json :=
  .obj [("paths", .obj [("/things", .obj [("get", .obj [("parameters",
    .arr [.obj [("description", .str "d"),
                ("$ref", .str "#/components/schemas/A")]])])])])]

/-- The specification's sibling-carrying Reference Object in Schema-Context
(a named schema referring to another named schema). -/
def c4SchemaRefDoc : Json :=
  .obj [("components", .obj [("schemas", .obj [
    ("b", .obj [("description", .str "d"), ("$ref", .str "#/components/schemas/a")]),
    ("a", .obj [("type", .str "string")])])])]

/-- A string schema declaring `contentEncoding: base64` while already
declaring the incompatible `format: binary` — a hard error for the
down-converter. -/
def collideSchema : Json :=
  .obj [("type", .str "string"), ("contentEncoding", .str "base64"),
        ("format", .str "binary")]

/-- A document with two independent unconvertible constructs. -/
def c6TwoErrorsDoc : Json :=
  .obj [("components", .obj [("schemas", .obj [("A", collideSchema),
                                               ("B", collideSchema)])])]

/-- An already-3.0 document: no 3.1-only constructs anywhere. -/
def c9PlainDoc : Json :=
  .obj [("openapi", .str "3.1.0"),
        ("info", .obj [("title", .str "t")]),
        ("paths", .obj [("/a", .obj [("get", .obj [("responses", .obj [("200",
          .obj [("content", .obj [("application/json", .obj [("schema",
            .obj [("type", .str "string")])])])])])])])])]

/-- A document with an `openIdConnect` security scheme and operations whose
`security` requirements use it, including `security` mappings under non-method
path-item keys that the scope collection must ignore. -/
def c10SecurityDoc : Json :=
  .obj [
    ("paths", .obj [
      ("/things", .obj [
        ("get", .obj [("security",
          .arr [.obj [("accessToken", .arr [.str "thing/read", .str "profile/read"]),
                      ("apiKey", .arr [])]])]),
        ("put", .obj [("security",
          .arr [.obj [("accessToken", .arr [.str "thing/write"])]])]),
        ("parameters", .obj [("security",
          .arr [.obj [("accessToken", .arr [.str "bogus/scope"])]])]),
        ("x-ext", .obj [("security",
          .arr [.obj [("accessToken", .arr [.str "bogus2"])]])])])]),
    ("components", .obj [("securitySchemes", .obj [("accessToken",
      .obj [("type", .str "openIdConnect"),
            ("openIdConnectUrl", .str "https://auth.example.com/oidc")])])])]

/-- A Scope Mapping supplying a description for one of the used scopes. -/
def c10ScopesMap : Json :=
  .obj [("thing/read", .str "Read things")]

/-! Basic lemmas about the JavaScript object operations. -/

theorem getEntry_setEntry_self (k : String) (v : Json) (l : List (String × Json)) :
    getEntry (setEntry l k v) k = some v := by
  induction l with
  | nil => simp [setEntry, getEntry]
  | cons kv rest ih =>
      by_cases h : kv.1 = k
      · simp [setEntry, h, getEntry]
      · simp [setEntry, h, getEntry, ih]

theorem getEntry_setEntry_ne (k k2 : String) (v : Json) (l : List (String × Json))
    (h : k ≠ k2) : getEntry (setEntry l k v) k2 = getEntry l k2 := by
  induction l with
  | nil => simp [setEntry, getEntry, h]
  | cons kv rest ih =>
      by_cases h1 : kv.1 = k
      · simp [setEntry, h1, getEntry, h]
      · simp [setEntry, h1, getEntry, ih]

theorem getEntry_delEntry_self (k : String) (l : List (String × Json)) :
    getEntry (delEntry l k) k = none := by
  induction l with
  | nil => simp [delEntry, getEntry]
  | cons kv rest ih =>
      obtain ⟨k1, v1⟩ := kv
      by_cases h : k1 = k
      · simpa [delEntry, h] using ih
      · simpa [delEntry, h, getEntry] using ih

theorem getEntry_delEntry_ne (k k2 : String) (l : List (String × Json))
    (h : k ≠ k2) : getEntry (delEntry l k) k2 = getEntry l k2 := by
  induction l with
  | nil => simp [delEntry, getEntry]
  | cons kv rest ih =>
      obtain ⟨k1, v1⟩ := kv
      have h3 : ¬(k2 = k) := fun e => h e.symm
      by_cases h1 : k1 = k
      · simp [delEntry, h1, getEntry, h, ih]
      · by_cases h2 : k1 = k2
        · simp [delEntry, h1, getEntry, h2, h3]
        · simp [delEntry, h1, getEntry, h2, ih]

theorem setEntry_of_getEntry (k : String) (v : Json) (l : List (String × Json))
    (h : getEntry l k = some v) : setEntry l k v = l := by
  induction l with
  | nil => simp [getEntry] at h
  | cons kv rest ih =>
      obtain ⟨k1, v1⟩ := kv
      by_cases h1 : k1 = k
      · subst h1
        simp [getEntry] at h
        simp [setEntry, h]
      · simp [getEntry, h1] at h
        simp [setEntry, h1, ih h]

theorem lookup_obj (l : List (String × Json)) (k : String) :
    Json.lookup (.obj l) k = getEntry l k := rfl

/-! Lemmas about SameValueZero deduplication. -/

theorem jsPrimEq_str (y : Json) (s : String) : jsPrimEq y (.str s) = true ↔ y = .str s := by
  cases y <;> simp [jsPrimEq]

theorem dedup_go_mem (s : String) :
    ∀ (l acc : List Json), (.str s ∈ acc ∨ .str s ∈ l) →
      .str s ∈ l.foldl
        (fun acc x => if acc.any (fun y => jsPrimEq y x) then acc else acc ++ [x]) acc := by
  intro l
  induction l with
  | nil =>
      intro acc h
      rcases h with h | h
      · simpa using h
      · simp at h
  | cons t rest ih =>
      intro acc h
      simp only [List.foldl_cons]
      by_cases ha : acc.any (fun y => jsPrimEq y t) = true
      · rw [if_pos ha]
        apply ih
        rcases h with h | h
        · exact Or.inl h
        · rcases List.mem_cons.mp h with h | h
          · rcases List.any_eq_true.mp ha with ⟨y, hy, hyeq⟩
            rw [← h] at hyeq
            exact Or.inl ((jsPrimEq_str y s).mp hyeq ▸ hy)
          · exact Or.inr h
      · rw [if_neg ha]
        apply ih
        rcases h with h | h
        · exact Or.inl (List.mem_append.mpr (Or.inl h))
        · rcases List.mem_cons.mp h with h | h
          · exact Or.inl (List.mem_append.mpr (Or.inr (by simp [h])))
          · exact Or.inr h

theorem dedupSVZ_mem (s : String) (l : List Json) (h : .str s ∈ l) :
    .str s ∈ dedupSVZ l :=
  dedup_go_mem s l [] (Or.inr h)

theorem dedup_go_all_eq (s : String) :
    ∀ l : List Json, (∀ t ∈ l, t = .str s) →
      l.foldl
        (fun acc x => if acc.any (fun y => jsPrimEq y x) then acc else acc ++ [x])
        [.str s] = [.str s] := by
  intro l
  induction l with
  | nil => simp
  | cons t rest ih =>
      intro h
      have ht : t = .str s := h t (List.mem_cons_self t rest)
      subst ht
      simp only [List.foldl_cons]
      have ha : ([Json.str s].any (fun y => jsPrimEq y (.str s))) = true := by
        simp [jsPrimEq]
      rw [if_pos ha]
      exact ih (fun x hx => h x (List.mem_cons_of_mem _ hx))

theorem dedupSVZ_all_eq (s : String) (l : List Json) (hm : .str s ∈ l)
    (hall : ∀ t ∈ l, t = .str s) : dedupSVZ l = [.str s] := by
  cases l with
  | nil => simp at hm
  | cons t rest =>
      have ht : t = .str s := hall t (List.mem_cons_self t rest)
      subst ht
      unfold dedupSVZ
      simp only [List.foldl_cons]
      rw [if_neg (by simp)]
      simpa using dedup_go_all_eq s rest (fun x hx => hall x (List.mem_cons_of_mem _ hx))

/-- Defining equation of `findSchemaObjectType` at positive fuel. -/
theorem findSchemaObjectType_succ (doc : Json) (fuel : Nat) (node : Json) :
    findSchemaObjectType doc (fuel+1) node =
      (match node.lookup "type" with
       | some tv => some tv
       | none =>
          if node.hasKey "allOf" || node.hasKey "anyOf" || node.hasKey "oneOf" then
            match jsOr (jsOr (node.lookup "allOf") (node.lookup "anyOf")) (node.lookup "oneOf") with
            | some (.arr vs) =>
                (match dedupSVZ ((vs.map (findSchemaObjectType doc fuel)).filterMap id) with
                | [u] => some u
                | _ => none)
            | _ => none
          else if isRef node then
            match node.lookup "$ref" with
            | some (.str r) =>
                match findSchema doc r with
                | some resolved =>
                    if resolved.truthy then findSchemaObjectType doc fuel resolved else none
                | none => none
            | _ => none
          else none) := rfl

/-- C3: `findSchemaObjectType` returns the schema's own `type` whenever the
schema has a `type` key (regardless of any composition wrapping elsewhere);
otherwise, on an `allOf`/`anyOf`/`oneOf` composition it yields the single
element of the set of distinct defined types recursively inferred from the
members — and is undefined when that set has zero or several elements (the
types being compared as primitive strings); otherwise, for a Reference Object
it resolves the reference within `components.schemas` and recurses into the
resolved schema. -/
theorem findSchemaObjectType_characterization :
    (∀ (doc : Json) (fuel : Nat) (node v : Json),
        node.lookup "type" = some v →
        findSchemaObjectType doc (fuel+1) node = some v)
  ∧ (∀ (doc : Json) (fuel : Nat) (node : Json) (vs : List Json),
        node.lookup "type" = none →
        (node.hasKey "allOf" || node.hasKey "anyOf" || node.hasKey "oneOf") = true →
        jsOr (jsOr (node.lookup "allOf") (node.lookup "anyOf")) (node.lookup "oneOf")
          = some (.arr vs) →
        ((vs.map (findSchemaObjectType doc fuel)).filterMap id = [] →
            findSchemaObjectType doc (fuel+1) node = none)
        ∧ (∀ s : String,
            .str s ∈ (vs.map (findSchemaObjectType doc fuel)).filterMap id →
            (∀ t ∈ (vs.map (findSchemaObjectType doc fuel)).filterMap id, t = .str s) →
            findSchemaObjectType doc (fuel+1) node = some (.str s))
        ∧ (∀ s1 s2 : String, s1 ≠ s2 →
            .str s1 ∈ (vs.map (findSchemaObjectType doc fuel)).filterMap id →
            .str s2 ∈ (vs.map (findSchemaObjectType doc fuel)).filterMap id →
            findSchemaObjectType doc (fuel+1) node = none))
  ∧ (∀ (doc : Json) (fuel : Nat) (node : Json) (r : String) (resolved : Json),
        node.lookup "type" = none →
        (node.hasKey "allOf" || node.hasKey "anyOf" || node.hasKey "oneOf") = false →
        node.lookup "$ref" = some (.str r) →
        findSchema doc r = some resolved →
        resolved.truthy = true →
        findSchemaObjectType doc (fuel+1) node = findSchemaObjectType doc fuel resolved) := by
  refine ⟨?_, ?_, ?_⟩
  · intro doc fuel node v h
    rw [findSchemaObjectType_succ, h]
  · intro doc fuel node vs hT hComp hVar
    refine ⟨?_, ?_, ?_⟩
    · intro hD
      rw [findSchemaObjectType_succ, hT]
      simp only [hComp, if_true, hVar, hD]
      rfl
    · intro s hm hall
      have hd := dedupSVZ_all_eq s _ hm hall
      rw [findSchemaObjectType_succ, hT]
      simp only [hComp, if_true, hVar, hd]
    · intro s1 s2 hne hm1 hm2
      have h1 := dedupSVZ_mem s1 _ hm1
      have h2 := dedupSVZ_mem s2 _ hm2
      rw [findSchemaObjectType_succ, hT]
      simp only [hComp, if_true, hVar]
      rcases hdd : dedupSVZ ((vs.map (findSchemaObjectType doc fuel)).filterMap id)
        with _ | ⟨u, _ | ⟨u2, rest⟩⟩
      · rfl
      · rw [hdd] at h1 h2
        simp at h1 h2
        have hcontra : s1 = s2 := by simpa using h1.trans h2.symm
        exact absurd hcontra hne
      · rfl
  · intro doc fuel node r resolved hT hComp hRef hRes hTru
    have hIsRef : isRef node = true := by simp [isRef, hRef]
    rw [findSchemaObjectType_succ, hT]
    simp only [hComp, Bool.false_eq_true, if_false, hIsRef, if_true, hRef, hRes, hTru]

/-- Witness for C3: the three characterization branches evaluated at concrete
schemas — a schema whose explicit `type` wins over a sibling `oneOf`, a
single-type `anyOf` composition, and a reference into `components.schemas`. -/
theorem findSchemaObjectType_characterization_witness :
    findSchemaObjectType .null 1
        (.obj [("type", .str "string"), ("oneOf", .arr [.obj [("type", .str "number")]])])
      = some (.str "string")
  ∧ findSchemaObjectType .null 2
        (.obj [("anyOf", .arr [.obj [("type", .str "string")]])])
      = some (.str "string")
  ∧ findSchemaObjectType c3RefDoc 2 (.obj [("$ref", .str "#/components/schemas/A")])
      = findSchemaObjectType c3RefDoc 1 (.obj [("type", .str "array")]) := by
  refine ⟨?_, ?_, ?_⟩
  · exact findSchemaObjectType_characterization.1 .null 0 _ _ rfl
  · refine (findSchemaObjectType_characterization.2.1 .null 1
        (.obj [("anyOf", .arr [.obj [("type", .str "string")]])])
        [.obj [("type", .str "string")]] rfl (by decide) rfl).2.1 "string" ?_ ?_
    · show Json.str "string" ∈ [Json.str "string"]
      exact List.mem_singleton.mpr rfl
    · intro t ht
      have h2 : t ∈ [Json.str "string"] := ht
      simpa using h2
  · exact findSchemaObjectType_characterization.2.2 c3RefDoc 1
      (.obj [("$ref", .str "#/components/schemas/A")])
      "#/components/schemas/A" (.obj [("type", .str "array")])
      rfl (by decide) rfl (by rfl) rfl

/-! Lemmas for copying the entries of one object onto another. -/

theorem getEntry_eq_none_iff (k : String) (l : List (String × Json)) :
    getEntry l k = none ↔ ∀ kv ∈ l, kv.1 ≠ k := by
  induction l with
  | nil => simp [getEntry]
  | cons kv rest ih =>
      obtain ⟨k1, v1⟩ := kv
      by_cases h : k1 = k
      · simp [getEntry, h]
      · simp [getEntry, h, ih]

theorem copyL_obj (entries : List (String × Json)) :
    ∀ il : List (String × Json),
      entries.foldl (fun (a : Json) kv => a.set kv.1 kv.2) (.obj il)
        = .obj (entries.foldl (fun a kv => setEntry a kv.1 kv.2) il) := by
  induction entries with
  | nil => intro il; rfl
  | cons kv rest ih =>
      intro il
      simp only [List.foldl_cons]
      exact ih (setEntry il kv.1 kv.2)

theorem copyL_getEntry_notin (k : String) (entries : List (String × Json))
    (h : ∀ kv ∈ entries, kv.1 ≠ k) :
    ∀ il, getEntry (entries.foldl (fun a kv => setEntry a kv.1 kv.2) il) k
      = getEntry il k := by
  induction entries with
  | nil => intro il; rfl
  | cons kv rest ih =>
      intro il
      simp only [List.foldl_cons]
      rw [ih (fun x hx => h x (List.mem_cons_of_mem _ hx))]
      exact getEntry_setEntry_ne kv.1 k kv.2 il (h kv (List.mem_cons_self kv rest))

theorem copyL_getEntry_mem (k : String) (v : Json) :
    ∀ entries : List (String × Json),
      (entries.map (fun kv => kv.1)).Nodup →
      getEntry entries k = some v →
    ∀ il, getEntry (entries.foldl (fun a kv => setEntry a kv.1 kv.2) il) k = some v := by
  intro entries
  induction entries with
  | nil => intro _ h; simp [getEntry] at h
  | cons kv rest ih =>
      intro hnd h il
      obtain ⟨k1, v1⟩ := kv
      simp only [List.map_cons, List.nodup_cons] at hnd
      simp only [List.foldl_cons]
      by_cases hk : k1 = k
      · subst hk
        simp only [getEntry, if_pos rfl] at h
        have hnotin : ∀ kv2 ∈ rest, kv2.1 ≠ k1 := by
          intro kv2 hkv2 he
          exact hnd.1 (he ▸ List.mem_map_of_mem (fun kv => kv.1) hkv2)
        rw [copyL_getEntry_notin k1 rest hnotin, getEntry_setEntry_self]
        simpa using h
      · simp only [getEntry, if_neg hk] at h
        exact ih hnd.2 h (setEntry il k1 v1)

/-- C1: on a schema whose `oneOf` contains at least one null marker, whose
remaining members have a truthy unified inferred type `t`, and which is not
the single-array-member case, the nullable-union merge removes `oneOf` and
sets `allOf` to `[ { nullable: true, type: t }, { oneOf: <non-null members> } ]`,
leaving every other key unchanged; in particular the specification's example
input produces exactly the promised output. -/
theorem convertNullableOneOf_merge :
    (∀ (doc : Json) (fuel : Nat) (l : List (String × Json)) (members : List Json) (t : Json),
      getEntry l "oneOf" = some (.arr members) →
      (members.filter (fun v => !isNullMarker v)).length < members.length →
      findSchemaObjectType doc fuel
          (.obj [("oneOf", .arr (members.filter (fun v => !isNullMarker v)))]) = some t →
      t.truthy = true →
      ¬(isStrEq t "array" = true ∧ (members.filter (fun v => !isNullMarker v)).length = 1) →
      ((convertNullableOneOfStep doc fuel (.obj l)).1.lookup "oneOf" = none
        ∧ (convertNullableOneOfStep doc fuel (.obj l)).1.lookup "allOf"
            = some (.arr [.obj [("nullable", .bool true), ("type", t)],
                          .obj [("oneOf", .arr (members.filter (fun v => !isNullMarker v)))]])
        ∧ ∀ k, k ≠ "oneOf" → k ≠ "allOf" →
            (convertNullableOneOfStep doc fuel (.obj l)).1.lookup k = getEntry l k))
  ∧ (convertNullableOneOf 8 c1ExampleDoc).1 = c1ExpectedDoc := by
  constructor
  · intro doc fuel l members t hOne hMark hInfer hTruthy hNotArr
    have hguard : (isStrEq t "array"
        && ((members.filter (fun v => !isNullMarker v)).length == 1)) = false := by
      by_cases ha : isStrEq t "array" = true
      · have hl : ¬((members.filter (fun v => !isNullMarker v)).length = 1) :=
          fun hlen => hNotArr ⟨ha, hlen⟩
        rw [ha, Bool.true_and]
        exact beq_eq_false_iff_ne.mpr hl
      · rw [Bool.not_eq_true] at ha
        rw [ha, Bool.false_and]
    have hstep : (convertNullableOneOfStep doc fuel (.obj l)).1
        = .obj (setEntry (delEntry l "oneOf") "allOf"
            (.arr [.obj [("nullable", .bool true), ("type", t)],
                   .obj [("oneOf", .arr (members.filter (fun v => !isNullMarker v)))]])) := by
      simp only [convertNullableOneOfStep, lookup_obj, hOne]
      rw [if_pos hMark]
      simp only [hInfer, hguard, Bool.false_eq_true, if_false, hTruthy, if_true]
      rfl
    refine ⟨?_, ?_, ?_⟩
    · rw [hstep, lookup_obj, getEntry_setEntry_ne _ _ _ _ (by decide),
        getEntry_delEntry_self]
    · rw [hstep, lookup_obj, getEntry_setEntry_self]
    · intro k hk1 hk2
      rw [hstep, lookup_obj, getEntry_setEntry_ne _ _ _ _ (fun e => hk2 e.symm),
        getEntry_delEntry_ne _ _ _ (fun e => hk1 e.symm)]
  · rfl

/-- Witness for C1: the merge theorem applied to the specification's example
schema `{ oneOf: [ {type:'null'}, {type:'string', maxLength:5} ] }`. -/
theorem convertNullableOneOf_merge_witness :
    (convertNullableOneOfStep .null 3 c1ExampleSchema).1.lookup "oneOf" = none
    ∧ (convertNullableOneOfStep .null 3 c1ExampleSchema).1.lookup "allOf"
        = some (.arr [.obj [("nullable", .bool true), ("type", .str "string")],
                      .obj [("oneOf", .arr [.obj [("type", .str "string"),
                                                  ("maxLength", .num 5)]])]]) := by
  have h := convertNullableOneOf_merge.1 .null 3
      [("oneOf", .arr [.obj [("type", .str "null")],
                       .obj [("type", .str "string"), ("maxLength", .num 5)]])]
      [.obj [("type", .str "null")], .obj [("type", .str "string"), ("maxLength", .num 5)]]
      (.str "string") rfl (by decide) (by rfl) rfl
      (fun hc => absurd hc.1 (by decide))
  exact ⟨h.1, h.2.1⟩

/-- C2: on a schema whose `oneOf` contains a null marker and whose single
remaining member has inferred type `array`, the nullable-union merge removes
`oneOf`, copies every key of that member's schema (a `$ref` member having
been resolved through `#/components/schemas/` first, per
`resolveOneOfMember`) directly onto the current schema, and sets
`nullable: true`, leaving unrelated keys unchanged; in particular the
specification's example input produces exactly
`{ type:'array', items:{type:'string'}, nullable:true }`. -/
theorem convertNullableOneOf_arrayInline :
    (∀ (doc : Json) (fuel : Nat) (l : List (String × Json)) (members : List Json)
        (arrEntries : List (String × Json)),
      getEntry l "oneOf" = some (.arr members) →
      (members.filter (fun v => !isNullMarker v)).length < members.length →
      (members.filter (fun v => !isNullMarker v)).length = 1 →
      findSchemaObjectType doc fuel
          (.obj [("oneOf", .arr (members.filter (fun v => !isNullMarker v)))])
        = some (.str "array") →
      resolveOneOfMember doc ((members.filter (fun v => !isNullMarker v)).headD .null)
        = some (.obj arrEntries) →
      (arrEntries.map (fun kv => kv.1)).Nodup →
      getEntry arrEntries "oneOf" = none →
      ((convertNullableOneOfStep doc fuel (.obj l)).1.lookup "oneOf" = none
        ∧ (convertNullableOneOfStep doc fuel (.obj l)).1.lookup "nullable"
            = some (.bool true)
        ∧ (∀ k v, getEntry arrEntries k = some v → k ≠ "nullable" →
            (convertNullableOneOfStep doc fuel (.obj l)).1.lookup k = some v)
        ∧ (∀ k, getEntry arrEntries k = none → k ≠ "oneOf" → k ≠ "nullable" →
            (convertNullableOneOfStep doc fuel (.obj l)).1.lookup k = getEntry l k)))
  ∧ (convertNullableOneOf 8 c2ExampleDoc).1 = c2ExpectedDoc := by
  constructor
  · intro doc fuel l members arrEntries hOne hMark hLen hInfer hRes hNodup hNoOneOf
    have hguard : (isStrEq (.str "array") "array"
        && ((members.filter (fun v => !isNullMarker v)).length == 1)) = true := by
      rw [hLen]; rfl
    have hstep : (convertNullableOneOfStep doc fuel (.obj l)).1
        = .obj (setEntry
            (arrEntries.foldl (fun a kv => setEntry a kv.1 kv.2) (delEntry l "oneOf"))
            "nullable" (.bool true)) := by
      simp only [convertNullableOneOfStep, lookup_obj, hOne]
      rw [if_pos hMark]
      simp only [hInfer, hguard, if_true, hRes]
      have hfold := copyL_obj arrEntries (delEntry l "oneOf")
      simp only [Json.del] at hfold ⊢
      rw [hfold]
      rfl
    have hnotinOneOf : ∀ kv ∈ arrEntries, kv.1 ≠ "oneOf" :=
      (getEntry_eq_none_iff "oneOf" arrEntries).mp hNoOneOf
    refine ⟨?_, ?_, ?_, ?_⟩
    · rw [hstep, lookup_obj, getEntry_setEntry_ne _ _ _ _ (by decide),
        copyL_getEntry_notin "oneOf" arrEntries hnotinOneOf, getEntry_delEntry_self]
    · rw [hstep, lookup_obj, getEntry_setEntry_self]
    · intro k v hkv hknn
      rw [hstep, lookup_obj, getEntry_setEntry_ne _ _ _ _ (fun e => hknn e.symm)]
      exact copyL_getEntry_mem k v arrEntries hNodup hkv (delEntry l "oneOf")
    · intro k hk hko hknn
      rw [hstep, lookup_obj, getEntry_setEntry_ne _ _ _ _ (fun e => hknn e.symm),
        copyL_getEntry_notin k arrEntries ((getEntry_eq_none_iff k arrEntries).mp hk),
        getEntry_delEntry_ne _ _ _ (fun e => hko e.symm)]
  · rfl

/-- Witness for C2: the inlining theorem applied to the specification's
example `{ oneOf: [ {type:'null'}, {type:'array', items:{type:'string'}} ] }`. -/
theorem convertNullableOneOf_arrayInline_witness :
    (convertNullableOneOfStep .null 3 c2ExampleSchema).1.lookup "oneOf" = none
    ∧ (convertNullableOneOfStep .null 3 c2ExampleSchema).1.lookup "nullable"
        = some (.bool true)
    ∧ (convertNullableOneOfStep .null 3 c2ExampleSchema).1.lookup "items"
        = some (.obj [("type", .str "string")]) := by
  have h := convertNullableOneOf_arrayInline.1 .null 3
      [("oneOf", .arr [.obj [("type", .str "null")],
                       .obj [("type", .str "array"),
                             ("items", .obj [("type", .str "string")])]])]
      [.obj [("type", .str "null")],
       .obj [("type", .str "array"), ("items", .obj [("type", .str "string")])]]
      [("type", .str "array"), ("items", .obj [("type", .str "string")])]
      rfl (by decide) (by decide) (by rfl) (by rfl) (by decide) rfl
  exact ⟨h.1, h.2.1, h.2.2.1 "items" (.obj [("type", .str "string")]) rfl (by decide)⟩

/-- C5 counterexample: `convertConstToEnum` rewrites a `const` mapping stored
under the non-structural `example` key of a schema — the mapping reachable
only through `example` is processed as a nested Schema Object, so the pass
does not leave it unchanged. -/
theorem schemaRecursion_example_counterexample :
    (convertConstToEnum 6 c5CounterDoc).1
      = .obj [("components", .obj [("schemas", .obj [("A",
          .obj [("example", .obj [("enum", .arr [.num 5])])])])])]
    ∧ getPath (convertConstToEnum 6 c5CounterDoc).1
        ["components", "schemas", "A", "example"] ≠ some (.obj [("const", .num 5)]) := by
  refine ⟨rfl, ?_⟩
  intro h
  have h2 : some (Json.obj [("enum", Json.arr [Json.num 5])])
      = some (Json.obj [("const", Json.num 5)]) := h
  simp at h2

/-- C5 (amended): the schema visitors descend into every object- or
array-valued entry of a schema regardless of its key, so a mapping under a
non-structural key such as `example` is processed as a nested Schema Object
(a truthy `const` inside it becomes `enum`); only non-container siblings such
as a `description` string are left untouched. -/
theorem schemaRecursion_descends_nonstructural :
    (∀ n : Int, n ≠ 0 →
      (mkSchemaVisitor convertConstToEnumStep 3
          (.obj [("example", .obj [("const", .num n)])])).1
        = .obj [("example", .obj [("enum", .arr [.num n])])])
  ∧ (∀ (fuel : Nat) (s : String),
      (mkSchemaVisitor convertConstToEnumStep fuel
          (.obj [("description", .str s)])).1
        = .obj [("description", .str s)]) := by
  constructor
  · intro n hn
    have ht : (Json.num n).truthy = true := by
      simp [Json.truthy]
      exact hn
    simp [mkSchemaVisitor, walkNestedSchemaObjects, walkObject, convertConstToEnumStep,
      Json.lookup, getEntry, Json.isContainer, ht, Json.del, delEntry, Json.set, setEntry]
  · intro fuel s
    cases fuel with
    | zero => rfl
    | succ f =>
        simp [mkSchemaVisitor, walkNestedSchemaObjects, convertConstToEnumStep,
          Json.lookup, getEntry, Json.isContainer]

/-- Witness for the amended C5: a concrete truthy `const` under `example`. -/
theorem schemaRecursion_descends_nonstructural_witness :
    (mkSchemaVisitor convertConstToEnumStep 3
        (.obj [("example", .obj [("const", .num 1)])])).1
      = .obj [("example", .obj [("enum", .arr [.num 1])])] :=
  schemaRecursion_descends_nonstructural.1 1 (by decide)

/-! Lemmas about the `for/in` fold of the examples visitor. -/

theorem getEntry_mem (k : String) (v : Json) :
    ∀ l : List (String × Json), getEntry l k = some v → (k, v) ∈ l := by
  intro l
  induction l with
  | nil => intro h; simp [getEntry] at h
  | cons kv rest ih =>
      intro h
      obtain ⟨k1, v1⟩ := kv
      by_cases h1 : k1 = k
      · subst h1
        simp [getEntry] at h
        subst h
        exact List.mem_cons_self _ _
      · simp only [getEntry, if_neg h1] at h
        exact List.mem_cons_of_mem _ (ih h)

theorem examplesFold_other (delOpt : Bool) (w : Json → Json × Nat) :
    ∀ (ks : List String) (st : List (String × Json) × Nat),
      "examples" ∉ ks → "example" ∉ ks →
      getEntry ((ks.foldl (examplesFoldStep delOpt w) st).1) "examples"
          = getEntry st.1 "examples"
      ∧ getEntry ((ks.foldl (examplesFoldStep delOpt w) st).1) "example"
          = getEntry st.1 "example" := by
  intro ks
  induction ks with
  | nil => intro st _ _; exact ⟨rfl, rfl⟩
  | cons k rest ih =>
      intro st hks hke
      have hk1 : k ≠ "examples" := fun e => hks (e ▸ List.mem_cons_self k rest)
      have hk2 : k ≠ "example" := fun e => hke (e ▸ List.mem_cons_self k rest)
      have hrest1 : "examples" ∉ rest := fun hm => hks (List.mem_cons_of_mem _ hm)
      have hrest2 : "example" ∉ rest := fun hm => hke (List.mem_cons_of_mem _ hm)
      simp only [List.foldl_cons]
      have hstep : getEntry ((examplesFoldStep delOpt w st k).1) "examples"
            = getEntry st.1 "examples"
          ∧ getEntry ((examplesFoldStep delOpt w st k).1) "example"
            = getEntry st.1 "example" := by
        unfold examplesFoldStep
        cases hv : getEntry st.1 k with
        | none => exact ⟨rfl, rfl⟩
        | some v =>
            cases hc : v.isContainer with
            | false => simp [hc]
            | true =>
                simp only [hc, if_true, if_neg hk1]
                constructor
                · exact getEntry_setEntry_ne k "examples" (w v).1 st.1 hk1
                · exact getEntry_setEntry_ne k "example" (w v).1 st.1 hk2
      have := ih (examplesFoldStep delOpt w st k) hrest1 hrest2
      exact ⟨this.1.trans hstep.1, this.2.trans hstep.2⟩

theorem examplesFold_preserves (delOpt : Bool) (w : Json → Json × Nat) (v : Json)
    (hv : ∀ (x : Json) (xs : List Json), v ≠ .arr (x :: xs)) :
    ∀ (ks : List String) (st : List (String × Json) × Nat),
      getEntry st.1 "examples" = some v →
      getEntry ((ks.foldl (examplesFoldStep delOpt w) st).1) "examples" = some v := by
  intro ks
  induction ks with
  | nil => intro st h; exact h
  | cons k rest ih =>
      intro st h
      simp only [List.foldl_cons]
      apply ih
      unfold examplesFoldStep
      by_cases hk : k = "examples"
      · subst hk
        rw [h]
        cases hc : v.isContainer with
        | false => simpa [hc] using h
        | true =>
            simp only [hc, if_true, if_pos rfl]
            cases v with
            | arr elems =>
                cases elems with
                | nil => exact h
                | cons x xs => exact absurd rfl (hv x xs)
            | null => exact h
            | bool b => exact h
            | num n => exact h
            | str s => exact h
            | obj o => exact h
      · cases hv2 : getEntry st.1 k with
        | none => exact h
        | some val =>
            cases hc : val.isContainer with
            | false => simpa [hc] using h
            | true =>
                simp only [hc, if_true, if_neg hk]
                rw [getEntry_setEntry_ne k "examples" (w val).1 st.1 hk]
                exact h

/-- C7 counterexample: with `deleteExampleWithId` set and `examples` whose
first element carries an `id`, a pre-existing `example` key survives the
pass, so it is not the case that neither key is present afterwards. -/
theorem convertJsonSchemaExamples_counterexample :
    (convertJsonSchemaExamples true 6 c7CounterDoc).1
      = .obj [("components", .obj [("schemas", .obj [("A",
          .obj [("example", .num 5)])])])]
    ∧ getPath (convertJsonSchemaExamples true 6 c7CounterDoc).1
        ["components", "schemas", "A", "example"] = some (.num 5) :=
  ⟨rfl, rfl⟩

/-- C7 (amended): on a schema whose `examples` is a non-empty array and which
has no pre-existing `example` key, the pass deletes `examples` and stores the
first element under `example` — except that with `deleteExampleWithId` set and
a first element that is a mapping with an `id` key, nothing is stored and
neither key is present; a pre-existing `example` key is not removed by the
id-deletion path (see the counterexample); an `examples` value that is not a
non-empty array is left unchanged. -/
theorem convertJsonSchemaExamples_amended :
    (∀ (delOpt : Bool) (fuel : Nat) (l : List (String × Json)) (first : Json)
        (rest : List Json),
      getEntry l "examples" = some (.arr (first :: rest)) →
      getEntry l "example" = none →
      (l.map (fun kv => kv.1)).Nodup →
      ((examplesVisit delOpt (fuel+1) (.obj l)).1.lookup "examples" = none
       ∧ ((delOpt && hasIdObj first) = true →
            (examplesVisit delOpt (fuel+1) (.obj l)).1.lookup "example" = none)
       ∧ ((delOpt && hasIdObj first) = false →
            (examplesVisit delOpt (fuel+1) (.obj l)).1.lookup "example" = some first)))
  ∧ (∀ (delOpt : Bool) (fuel : Nat) (l : List (String × Json)) (v : Json),
      getEntry l "examples" = some v →
      (∀ (x : Json) (xs : List Json), v ≠ .arr (x :: xs)) →
      (examplesVisit delOpt (fuel+1) (.obj l)).1.lookup "examples" = some v) := by
  constructor
  · intro delOpt fuel l first rest hEx hNoEx hNodup
    have hmem : "examples" ∈ l.map (fun kv => kv.1) :=
      List.mem_map_of_mem _ (getEntry_mem "examples" _ l hEx)
    obtain ⟨ks1, ks2, hsplit⟩ := List.append_of_mem hmem
    have hNodupKs : (ks1 ++ "examples" :: ks2).Nodup := hsplit ▸ hNodup
    have hnotin1 : "examples" ∉ ks1 := by
      have hdisj := List.disjoint_of_nodup_append hNodupKs
      intro hm
      exact hdisj hm (List.mem_cons_self _ _)
    have hnotin2 : "examples" ∉ ks2 := by
      have := (List.nodup_append.mp hNodupKs).2.1
      exact (List.nodup_cons.mp this).1
    have hexample_notin : "example" ∉ l.map (fun kv => kv.1) := by
      intro hm
      rcases List.mem_map.mp hm with ⟨kv, hkv, hk⟩
      exact ((getEntry_eq_none_iff "example" l).mp hNoEx kv hkv) hk
    have hex1 : "example" ∉ ks1 := fun hm =>
      hexample_notin (hsplit ▸ List.mem_append.mpr (Or.inl hm))
    have hex2 : "example" ∉ ks2 := fun hm =>
      hexample_notin
        (hsplit ▸ List.mem_append.mpr (Or.inr (List.mem_cons_of_mem _ hm)))
    set w := walkObject (examplesVisit delOpt fuel) fuel with hw
    have hmain : (examplesVisit delOpt (fuel+1) (.obj l)).1
        = .obj (((ks1 ++ "examples" :: ks2).foldl (examplesFoldStep delOpt w) (l, 0)).1) := by
      show Json.obj (((l.map (fun kv => kv.1)).foldl (examplesFoldStep delOpt w) (l, 0)).1)
          = _
      rw [hsplit]
    have hphase1 := examplesFold_other delOpt w ks1 (l, 0) hnotin1 hex1
    set st1 := ks1.foldl (examplesFoldStep delOpt w) (l, 0) with hst1
    have hst1ex : getEntry st1.1 "examples" = some (.arr (first :: rest)) :=
      hphase1.1.trans hEx
    have hst1e : getEntry st1.1 "example" = none := hphase1.2.trans hNoEx
    have hfold : (ks1 ++ "examples" :: ks2).foldl (examplesFoldStep delOpt w) (l, 0)
        = ks2.foldl (examplesFoldStep delOpt w) (examplesFoldStep delOpt w st1 "examples") := by
      rw [List.foldl_append]
      rfl
    have hstepEx : examplesFoldStep delOpt w st1 "examples"
        = (if delOpt && hasIdObj first then (delEntry st1.1 "examples", st1.2)
           else (setEntry (delEntry st1.1 "examples") "example" first, st1.2)) := by
      unfold examplesFoldStep
      rw [hst1ex]
      simp only [Json.isContainer, if_true, if_pos rfl]
    have hphase2 := fun st => examplesFold_other delOpt w ks2 st hnotin2 hex2
    rw [hmain, hfold]
    cases hid : delOpt && hasIdObj first with
    | true =>
        rw [hstepEx, if_pos hid]
        refine ⟨?_, fun _ => ?_, fun hcontra => absurd hcontra (by decide)⟩
        · rw [lookup_obj, (hphase2 _).1, getEntry_delEntry_self]
        · rw [lookup_obj, (hphase2 _).2,
            getEntry_delEntry_ne "examples" "example" st1.1 (by decide), hst1e]
    | false =>
        rw [hstepEx, if_neg (by simp [hid])]
        refine ⟨?_, fun hcontra => absurd hcontra (by decide), fun _ => ?_⟩
        · rw [lookup_obj, (hphase2 _).1,
            getEntry_setEntry_ne "example" "examples" first _ (by decide),
            getEntry_delEntry_self]
        · rw [lookup_obj, (hphase2 _).2, getEntry_setEntry_self]
  · intro delOpt fuel l v hEx hv
    show getEntry (((l.map (fun kv => kv.1)).foldl
        (examplesFoldStep delOpt (walkObject (examplesVisit delOpt fuel) fuel)) (l, 0)).1)
        "examples" = some v
    exact examplesFold_preserves delOpt _ v hv _ (l, 0) hEx

/-- Witness for the amended C7: the specification's `{ examples:['foo','bar'] }`
example and the id-deletion case without a pre-existing `example`. -/
theorem convertJsonSchemaExamples_amended_witness :
    (examplesVisit false 1 (.obj [("examples", .arr [.str "foo", .str "bar"])])).1.lookup
        "examples" = none
    ∧ (examplesVisit false 1
        (.obj [("examples", .arr [.str "foo", .str "bar"])])).1.lookup "example"
        = some (.str "foo")
    ∧ (examplesVisit true 1
        (.obj [("examples", .arr [.obj [("id", .str "x")]])])).1.lookup "example"
        = none := by
  have h1 := convertJsonSchemaExamples_amended.1 false 0
      [("examples", .arr [.str "foo", .str "bar"])] (.str "foo") [.str "bar"]
      rfl rfl (by decide)
  have h2 := convertJsonSchemaExamples_amended.1 true 0
      [("examples", .arr [.obj [("id", .str "x")]])] (.obj [("id", .str "x")]) []
      rfl rfl (by decide)
  exact ⟨h1.1, h1.2.2 (by decide), h2.2.1 (by decide)⟩

/-! Projection lemmas for the generic walker. -/

theorem walkObject_arr_fst (t : Json → Json × Nat) (f : Nat) (l : List Json) :
    (walkObject t (f+1) (.arr l)).1 = .arr (l.map (fun e => (walkObject t f e).1)) := by
  show Json.arr ((l.foldr
      (fun e acc => let r := walkObject t f e; (r.1 :: acc.1, r.2 + acc.2))
      (([] : List Json), 0)).1) = _
  congr 1
  induction l with
  | nil => rfl
  | cons e rest ih =>
      simp only [List.foldr_cons, List.map_cons]
      rw [← ih]

theorem walkObject_obj_fst (t : Json → Json × Nat) (f : Nat) (l : List (String × Json)) :
    (walkObject t (f+1) (.obj l)).1
      = (t (.obj (l.map (fun kv =>
          (kv.1, if kv.2.isContainer then (walkObject t f kv.2).1 else kv.2))))).1 := by
  have hlist : (l.foldr
      (fun kv acc =>
        let r := if kv.2.isContainer then walkObject t f kv.2 else (kv.2, 0)
        ((kv.1, r.1) :: acc.1, r.2 + acc.2))
      (([] : List (String × Json)), 0)).1
      = l.map (fun kv => (kv.1, if kv.2.isContainer then (walkObject t f kv.2).1 else kv.2)) := by
    induction l with
    | nil => rfl
    | cons kv rest ih =>
        simp only [List.foldr_cons, List.map_cons]
        rw [← ih]
        cases hc : kv.2.isContainer <;> simp [hc]
  show (t (.obj ((l.foldr
      (fun kv acc =>
        let r := if kv.2.isContainer then walkObject t f kv.2 else (kv.2, 0)
        ((kv.1, r.1) :: acc.1, r.2 + acc.2))
      (([] : List (String × Json)), 0)).1))).1 = _
  rw [hlist]

theorem refsSimplified_scalar (f : Nat) (j : Json) (h : j.isContainer = false) :
    refsSimplified f j = true := by
  cases f <;> cases j <;> first | rfl | simp [Json.isContainer] at h

theorem isRef_iff (j : Json) : isRef j = true ↔ ∃ r, j.lookup "$ref" = some (.str r) := by
  unfold isRef
  cases hv : j.lookup "$ref" with
  | none => simp
  | some v => cases v <;> simp [hv]

theorem filter_eq_nil_of (p : String × Json → Bool) :
    ∀ l : List (String × Json), (∀ kv ∈ l, p kv = false) → l.filter p = [] := by
  intro l
  induction l with
  | nil => intro _; rfl
  | cons kv rest ih =>
      intro h
      rw [List.filter_cons, h kv (List.mem_cons_self kv rest)]
      exact ih (fun x hx => h x (List.mem_cons_of_mem _ hx))

theorem filterRef_eq_single (r : Json) :
    ∀ l : List (String × Json), (l.map (fun kv => kv.1)).Nodup →
      getEntry l "$ref" = some r →
      l.filter (fun kv => kv.1 = "$ref") = [("$ref", r)] := by
  intro l
  induction l with
  | nil => intro _ h; simp [getEntry] at h
  | cons kv rest ih =>
      intro hnd h
      obtain ⟨k1, v1⟩ := kv
      simp only [List.map_cons, List.nodup_cons] at hnd
      by_cases hk : k1 = "$ref"
      · subst hk
        simp [getEntry] at h
        subst h
        rw [List.filter_cons]
        simp only [decide_True, if_pos]
        have hrest : rest.filter (fun kv => kv.1 = "$ref") = [] := by
          apply filter_eq_nil_of
          intro kv2 hkv2
          have hne : kv2.1 ≠ "$ref" := by
            intro he
            exact hnd.1 (he ▸ List.mem_map_of_mem (fun kv => kv.1) hkv2)
          simp [hne]
        rw [hrest]
      · simp only [getEntry, if_neg hk] at h
        rw [List.filter_cons]
        have hd : (decide (k1 = "$ref")) = false := by simp [hk]
        rw [hd]
        exact ih hnd.2 h

/-- C4: the invariant after the reference-rewriting passes, together with the
per-node actions.  First conjunct: for any document (unique keys, within the
depth bound) every mapping carrying a string `$ref` in the output of
`simplifyNonSchemaRef` — the last reference-rewriting pass, run in both
modes — has exactly one key, `$ref`.  Second conjunct: the `convertSchemaRef`
visitor turns a sibling-carrying Schema Reference into a wrapper holding the
original siblings plus `allOf: [ { $ref } ]` and no top-level `$ref` key.
Third and fourth conjuncts: the specification's sibling example rewritten
through the full passes in both modes. -/
theorem referenceRewriting_invariant :
    (∀ (f : Nat) (j : Json), deepLe f j = true → allNodesHold keysNodup f j = true →
        refsSimplified f (simplifyNonSchemaRef f j).1 = true)
  ∧ (∀ (l : List (String × Json)) (r : Json),
        getEntry l "$ref" = some r → l.length ≠ 1 →
        ((refToAllOfT (.obj l)).1.lookup "$ref" = none
         ∧ (refToAllOfT (.obj l)).1.lookup "allOf" = some (.arr [.obj [("$ref", r)]])
         ∧ ∀ k, k ≠ "$ref" → k ≠ "allOf" →
             (refToAllOfT (.obj l)).1.lookup k = getEntry l k))
  ∧ (simplifyNonSchemaRef 8 c4PlainRefDoc).1
      = .obj [("paths", .obj [("/things", .obj [("get", .obj [("parameters",
          .arr [.obj [("$ref", .str "#/components/schemas/A")]])])])])]
  ∧ (convertSchemaRef true 8 c4SchemaRefDoc).1
      = .obj [("components", .obj [("schemas", .obj [
          ("b", .obj [("description", .str "d"),
                      ("allOf", .arr [.obj [("$ref", .str "#/components/schemas/a")]])]),
          ("a", .obj [("type", .str "string")])])])] := by
  refine ⟨?_, ?_, rfl, rfl⟩
  · intro f
    induction f with
    | zero =>
        intro j hd _
        cases j with
        | obj l => simp [deepLe] at hd
        | arr l => simp [deepLe] at hd
        | null => rfl
        | bool b => rfl
        | num n => rfl
        | str s => rfl
    | succ f ih =>
        intro j hd ha
        cases j with
        | null => rfl
        | bool b => rfl
        | num n => rfl
        | str s => rfl
        | arr l =>
            show refsSimplified (f+1)
              (walkObject (fun m => if isRef m then stripRefT m else (m, 0)) (f+1) (.arr l)).1
              = true
            rw [walkObject_arr_fst]
            simp only [refsSimplified, List.all_map, List.all_eq_true]
            intro e he
            simp only [deepLe, List.all_eq_true] at hd
            simp only [allNodesHold, List.all_eq_true] at ha
            exact ih e (hd e he) (ha e he)
        | obj l =>
            show refsSimplified (f+1)
              (walkObject (fun m => if isRef m then stripRefT m else (m, 0)) (f+1) (.obj l)).1
              = true
            rw [walkObject_obj_fst]
            simp only [deepLe, List.all_eq_true] at hd
            simp only [allNodesHold, Bool.and_eq_true, List.all_eq_true] at ha
            set l2 := l.map (fun kv =>
              (kv.1, if kv.2.isContainer then
                (walkObject (fun m => if isRef m then stripRefT m else (m, 0)) f kv.2).1
               else kv.2)) with hl2
            have hkeys : l2.map (fun kv => kv.1) = l.map (fun kv => kv.1) := by
              rw [hl2, List.map_map]
              rfl
            have hvals : ∀ kv ∈ l2, refsSimplified f kv.2 = true := by
              intro kv hkv
              rw [hl2] at hkv
              rcases List.mem_map.mp hkv with ⟨kv0, hkv0, hEq⟩
              subst hEq
              cases hc : kv0.2.isContainer with
              | true =>
                  simp only [hc, if_true]
                  exact ih kv0.2 (hd kv0 hkv0) (ha.2 kv0 hkv0)
              | false =>
                  simp only [hc, if_false]
                  exact refsSimplified_scalar f kv0.2 hc
            cases hrf : isRef (.obj l2) with
            | false =>
                simp only [hrf, Bool.false_eq_true, if_false]
                simp only [refsSimplified, hrf, Bool.not_false, Bool.true_or,
                  Bool.true_and, List.all_eq_true]
                exact hvals
            | true =>
                rw [if_pos rfl]
                rcases (isRef_iff (.obj l2)).mp hrf with ⟨r, hr⟩
                rw [lookup_obj] at hr
                by_cases hlen : l2.length = 1
                · simp only [stripRefT]
                  rw [if_pos hlen]
                  simp only [refsSimplified, Bool.and_eq_true, Bool.or_eq_true,
                    List.all_eq_true]
                  exact ⟨Or.inr (by simp [hlen]), hvals⟩
                · simp only [stripRefT]
                  rw [if_neg hlen]
                  have hnd : (l2.map (fun kv => kv.1)).Nodup := by
                    rw [hkeys]
                    have h1 := ha.1
                    simp only [keysNodup, decide_eq_true_eq] at h1
                    exact h1
                  rw [filterRef_eq_single (.str r) l2 hnd hr]
                  simp only [refsSimplified, Bool.and_eq_true, Bool.or_eq_true,
                    List.all_eq_true]
                  constructor
                  · right; rfl
                  · intro kv hkv
                    have hkv2 : kv = ("$ref", .str r) := by simpa using hkv
                    rw [hkv2]
                    exact refsSimplified_scalar f _ rfl
  · intro l r hRef hLen
    simp only [refToAllOfT]
    rw [if_neg hLen]
    simp only [Json.set, Json.del, lookup_obj, hRef, Option.getD_some]
    refine ⟨?_, ?_, ?_⟩
    · rw [getEntry_delEntry_self]
    · rw [getEntry_delEntry_ne _ _ _ (by decide), getEntry_setEntry_self]
    · intro k hk1 hk2
      rw [getEntry_delEntry_ne _ _ _ (fun e => hk1 e.symm),
        getEntry_setEntry_ne _ _ _ _ (fun e => hk2 e.symm)]

/-- Witness for C4: the invariant instantiated on the plain-reference example
document, and the wrapper action instantiated on the sibling-carrying node. -/
theorem referenceRewriting_invariant_witness :
    refsSimplified 8 (simplifyNonSchemaRef 8 c4PlainRefDoc).1 = true
    ∧ (refToAllOfT (.obj [("description", .str "d"),
        ("$ref", .str "#/components/schemas/A")])).1.lookup "allOf"
      = some (.arr [.obj [("$ref", .str "#/components/schemas/A")]]) := by
  constructor
  · exact referenceRewriting_invariant.1 8 c4PlainRefDoc (by decide) (by decide)
  · exact (referenceRewriting_invariant.2.1
      [("description", .str "d"), ("$ref", .str "#/components/schemas/A")]
      (.str "#/components/schemas/A") rfl (by decide)).2.1

/-- C6: `convert` fails if and only if the error counter is positive — the
single check sits after every pass in the pipeline (see the definition of
`convert`, whose final count sums the errors of all passes), so a document
with two independent unconvertible constructs records both errors (counter 2)
before the one failure; with a zero counter the transformed document is
returned. -/
theorem convert_error_behaviour :
    (∀ (opts : ConverterOptions) (fuel : Nat) (doc : Json),
        (convertExcept opts fuel doc = .ok (convert opts fuel doc).1
          ↔ (convert opts fuel doc).2 = 0)
      ∧ (convertExcept opts fuel doc = .error "Cannot down convert this OpenAPI definition."
          ↔ 0 < (convert opts fuel doc).2))
  ∧ (convert defaultOptions 8 c6TwoErrorsDoc).2 = 2
  ∧ convertExcept defaultOptions 8 c6TwoErrorsDoc
      = .error "Cannot down convert this OpenAPI definition." := by
  refine ⟨?_, rfl, rfl⟩
  intro opts fuel doc
  unfold convertExcept
  by_cases h : (convert opts fuel doc).2 = 0
  · constructor
    · constructor
      · intro _; exact h
      · intro _
        rw [if_neg]
        omega
    · constructor
      · intro he
        rw [if_neg (by omega)] at he
        exact absurd he (by simp)
      · intro hpos
        omega
  · have hpos : 0 < (convert opts fuel doc).2 := Nat.pos_of_ne_zero h
    constructor
    · constructor
      · intro he
        rw [if_pos hpos] at he
        exact absurd he (by simp)
      · intro h0
        exact absurd h0 h
    · constructor
      · intro _; exact hpos
      · intro _
        rw [if_pos hpos]

/-- Witness for C6: a document with no unconvertible construct succeeds and
returns the transformed document. -/
theorem convert_error_behaviour_witness :
    convertExcept defaultOptions 4 (.obj [])
      = .ok (convert defaultOptions 4 (.obj [])).1 :=
  (convert_error_behaviour.1 defaultOptions 4 (.obj [])).1.mpr rfl

/-! Lemmas for the scope-collection folds of `convertSecuritySchemes`. -/

theorem lookup_set_ne (j : Json) (k1 k2 : String) (v : Json) (h : k1 ≠ k2) :
    (j.set k1 v).lookup k2 = j.lookup k2 := by
  cases j <;> simp [Json.set, Json.lookup]
  exact getEntry_setEntry_ne k1 k2 v _ h

theorem lookup_some_obj (j : Json) (k : String) (v : Json) (h : j.lookup k = some v) :
    ∃ cl, j = .obj cl := by
  cases j <;> simp [Json.lookup] at h <;> exact ⟨_, rfl⟩

theorem mem_keys_of_lookup (j : Json) (k : String) (v : Json) (h : j.lookup k = some v) :
    k ∈ j.keys := by
  obtain ⟨cl, rfl⟩ := lookup_some_obj j k v h
  rw [lookup_obj] at h
  exact List.mem_map_of_mem (fun kv => kv.1) (getEntry_mem k v cl h)

/-- Generic characterization of a left fold that only ever writes the fixed
value `desc` under the key `sc` (and writes it exactly when the element
satisfies `P`): the fold is closed over mappings, a hit forces the entry, a
present entry is kept, and without hits the entry is untouched. -/
theorem foldScopes {α : Type} (step : Json → α → Json) (P : α → Prop) (desc : Json)
    (sc : String)
    (hIsObj : ∀ (sl : List (String × Json)) (a : α), ∃ sl2, step (.obj sl) a = .obj sl2)
    (hMiss : ∀ (sl : List (String × Json)) (a : α), ¬P a →
        (step (.obj sl) a).lookup sc = getEntry sl sc)
    (hHit : ∀ (sl : List (String × Json)) (a : α), P a →
        (step (.obj sl) a).lookup sc = some desc) :
    ∀ (xs : List α) (sl : List (String × Json)),
      (∃ sl2, xs.foldl step (.obj sl) = .obj sl2)
      ∧ ((∃ a ∈ xs, P a) → (xs.foldl step (.obj sl)).lookup sc = some desc)
      ∧ (getEntry sl sc = some desc → (xs.foldl step (.obj sl)).lookup sc = some desc)
      ∧ ((¬∃ a ∈ xs, P a) → (xs.foldl step (.obj sl)).lookup sc = getEntry sl sc) := by
  intro xs
  induction xs with
  | nil =>
      intro sl
      exact ⟨⟨sl, rfl⟩, fun h => absurd h (by simp), fun h => h, fun _ => rfl⟩
  | cons a rest ih =>
      intro sl
      obtain ⟨sl2, hstep⟩ := hIsObj sl a
      simp only [List.foldl_cons, hstep]
      have hlk : getEntry sl2 sc = (step (.obj sl) a).lookup sc := by
        rw [hstep]; rfl
      refine ⟨(ih sl2).1, ?_, ?_, ?_⟩
      · rintro ⟨a0, hmem, hp⟩
        rcases List.mem_cons.mp hmem with h0 | h0
        · subst h0
          exact (ih sl2).2.2.1 (hlk.trans (hHit sl a0 hp))
        · exact (ih sl2).2.1 ⟨a0, h0, hp⟩
      · intro hpre
        by_cases hp : P a
        · exact (ih sl2).2.2.1 (hlk.trans (hHit sl a hp))
        · exact (ih sl2).2.2.1 (hlk.trans ((hMiss sl a hp).trans hpre))
      · rintro hno
        have hpa : ¬P a := fun hp => hno ⟨a, List.mem_cons_self a rest, hp⟩
        have hrest : ¬∃ a0 ∈ rest, P a0 :=
          fun ⟨a0, h0, hp⟩ => hno ⟨a0, List.mem_cons_of_mem _ h0, hp⟩
        rw [(ih sl2).2.2.2 hrest, hlk, hMiss sl a hpa]

/-- The per-element behaviour of `scopesOfReqs`: it writes exactly the string
scopes of the list. -/
theorem scopesOfReqs_spec (sd : Json) (sc : String) (reqs : List Json)
    (sl : List (String × Json)) :
    (∃ sl2, scopesOfReqs sd (.obj sl) reqs = .obj sl2)
    ∧ (Json.str sc ∈ reqs →
        (scopesOfReqs sd (.obj sl) reqs).lookup sc = some (scopeDesc sd sc))
    ∧ (getEntry sl sc = some (scopeDesc sd sc) →
        (scopesOfReqs sd (.obj sl) reqs).lookup sc = some (scopeDesc sd sc))
    ∧ ((Json.str sc ∉ reqs) →
        (scopesOfReqs sd (.obj sl) reqs).lookup sc = getEntry sl sc) := by
  have h := foldScopes
    (fun scopes scope =>
      match scope with
      | .str s => scopes.set s (scopeDesc sd s)
      | _ => scopes)
    (fun scope => scope = .str sc) (scopeDesc sd sc) sc
    (fun sl a => by
      cases a with
      | str s => exact ⟨setEntry sl s (scopeDesc sd s), rfl⟩
      | null => exact ⟨sl, rfl⟩
      | bool b => exact ⟨sl, rfl⟩
      | num n => exact ⟨sl, rfl⟩
      | arr el => exact ⟨sl, rfl⟩
      | obj o => exact ⟨sl, rfl⟩)
    (fun sl a hne => by
      cases a with
      | str s =>
          have hs : s ≠ sc := fun e => hne (by rw [e])
          exact getEntry_setEntry_ne s sc (scopeDesc sd s) sl hs
      | null => rfl
      | bool b => rfl
      | num n => rfl
      | arr el => rfl
      | obj o => rfl)
    (fun sl a hp => by
      subst hp
      exact getEntry_setEntry_self sc (scopeDesc sd sc) sl)
    reqs sl
  refine ⟨h.1, ?_, h.2.2.1, ?_⟩
  · intro hm
    exact h.2.1 ⟨.str sc, hm, rfl⟩
  · intro hm
    refine h.2.2.2 ?_
    rintro ⟨a, ha, rfl⟩
    exact hm ha

/-- The per-entry behaviour of `scopesOfSec` over the `security` array. -/
theorem scopesOfSec_spec (sd : Json) (sn sc : String) (sec : List Json)
    (sl : List (String × Json)) :
    (∃ sl2, scopesOfSec sd sn (.obj sl) sec = .obj sl2)
    ∧ ((∃ s ∈ sec, ∃ reqs, s.lookup sn = some (.arr reqs) ∧ Json.str sc ∈ reqs) →
        (scopesOfSec sd sn (.obj sl) sec).lookup sc = some (scopeDesc sd sc))
    ∧ (getEntry sl sc = some (scopeDesc sd sc) →
        (scopesOfSec sd sn (.obj sl) sec).lookup sc = some (scopeDesc sd sc))
    ∧ ((¬∃ s ∈ sec, ∃ reqs, s.lookup sn = some (.arr reqs) ∧ Json.str sc ∈ reqs) →
        (scopesOfSec sd sn (.obj sl) sec).lookup sc = getEntry sl sc) := by
  have h := foldScopes
    (fun scopes s =>
      let requirement := (s.lookup sn).getD .null
      if requirement.truthy then
        match requirement with
        | .arr reqs => scopesOfReqs sd scopes reqs
        | _ => scopes
      else scopes)
    (fun s => ∃ reqs, s.lookup sn = some (.arr reqs) ∧ Json.str sc ∈ reqs)
    (scopeDesc sd sc) sc
    (fun sl s => by
      simp only []
      cases hlook : s.lookup sn with
      | none => exact ⟨sl, by simp only [hlook, Option.getD_none]; rfl⟩
      | some v =>
          cases v with
          | arr reqs =>
              obtain ⟨sl2, h2⟩ := (scopesOfReqs_spec sd sc reqs sl).1
              exact ⟨sl2, by simp only [hlook, Option.getD_some]; exact h2⟩
          | null => exact ⟨sl, by simp only [hlook, Option.getD_some]; rfl⟩
          | bool b =>
              refine ⟨sl, ?_⟩
              cases b
              · simp only [hlook, Option.getD_some]; rfl
              · simp only [hlook, Option.getD_some]; rfl
          | num n =>
              refine ⟨sl, ?_⟩
              simp only [hlook, Option.getD_some]
              by_cases hb : (Json.num n).truthy = true
              · rw [if_pos hb]
              · rw [if_neg hb]
          | str s2 =>
              refine ⟨sl, ?_⟩
              simp only [hlook, Option.getD_some]
              by_cases hb : (Json.str s2).truthy = true
              · rw [if_pos hb]
              · rw [if_neg hb]
          | obj o => exact ⟨sl, by simp only [hlook, Option.getD_some]; rfl⟩)
    (fun sl s hne => by
      simp only []
      cases hlook : s.lookup sn with
      | none => simp only [hlook, Option.getD_none]; rfl
      | some v =>
          cases v with
          | arr reqs =>
              have hm : Json.str sc ∉ reqs := fun hm => hne ⟨reqs, hlook, hm⟩
              simp only [hlook, Option.getD_some]
              exact (scopesOfReqs_spec sd sc reqs sl).2.2.2 hm
          | null => simp only [hlook, Option.getD_some]; rfl
          | bool b =>
              cases b
              · simp only [hlook, Option.getD_some]; rfl
              · simp only [hlook, Option.getD_some]; rfl
          | num n =>
              simp only [hlook, Option.getD_some]
              by_cases hb : (Json.num n).truthy = true
              · rw [if_pos hb]; rfl
              · rw [if_neg hb]; rfl
          | str s2 =>
              simp only [hlook, Option.getD_some]
              by_cases hb : (Json.str s2).truthy = true
              · rw [if_pos hb]; rfl
              · rw [if_neg hb]; rfl
          | obj o => simp only [hlook, Option.getD_some]; rfl)
    (fun sl s hp => by
      simp only []
      obtain ⟨reqs, hlook, hm⟩ := hp
      simp only [hlook, Option.getD_some]
      exact (scopesOfReqs_spec sd sc reqs sl).2.1 hm)
    sec sl
  exact h

/-- The per-method behaviour of the path-item fold: only methods whose
operation carries a matching `security` requirement contribute. -/
theorem scopesOfPathItem_spec (sd : Json) (sn sc : String) (pi : Json)
    (sl : List (String × Json)) :
    (∃ sl2, scopesOfPathItem sd sn (.obj sl) pi = .obj sl2)
    ∧ ((∃ m op sec, m ∈ HTTP_METHODS ∧ pi.lookup m = some op
          ∧ op.lookup "security" = some (.arr sec)
          ∧ (∃ s ∈ sec, ∃ reqs, s.lookup sn = some (.arr reqs) ∧ Json.str sc ∈ reqs)) →
        (scopesOfPathItem sd sn (.obj sl) pi).lookup sc = some (scopeDesc sd sc))
    ∧ (getEntry sl sc = some (scopeDesc sd sc) →
        (scopesOfPathItem sd sn (.obj sl) pi).lookup sc = some (scopeDesc sd sc))
    ∧ ((¬∃ m op sec, m ∈ HTTP_METHODS ∧ pi.lookup m = some op
          ∧ op.lookup "security" = some (.arr sec)
          ∧ (∃ s ∈ sec, ∃ reqs, s.lookup sn = some (.arr reqs) ∧ Json.str sc ∈ reqs)) →
        (scopesOfPathItem sd sn (.obj sl) pi).lookup sc = getEntry sl sc) := by
  have h := foldScopes
    (fun scopes m => scopesOfOp sd sn scopes ((pi.lookup m).getD .null))
    (fun m => ∃ op sec, pi.lookup m = some op
        ∧ op.lookup "security" = some (.arr sec)
        ∧ (∃ s ∈ sec, ∃ reqs, s.lookup sn = some (.arr reqs) ∧ Json.str sc ∈ reqs))
    (scopeDesc sd sc) sc
    (fun sl m => by
      simp only [scopesOfOp]
      cases hsec : ((pi.lookup m).getD .null).lookup "security" with
      | none => exact ⟨sl, rfl⟩
      | some v =>
          cases v with
          | arr sec =>
              obtain ⟨sl2, h2⟩ := (scopesOfSec_spec sd sn sc sec sl).1
              exact ⟨sl2, h2⟩
          | null => exact ⟨sl, rfl⟩
          | bool b => exact ⟨sl, rfl⟩
          | num n => exact ⟨sl, rfl⟩
          | str s2 => exact ⟨sl, rfl⟩
          | obj o => exact ⟨sl, rfl⟩)
    (fun sl m hne => by
      simp only [scopesOfOp]
      cases hlookm : pi.lookup m with
      | none => simp only [hlookm, Option.getD_none]; rfl
      | some op =>
          simp only [hlookm, Option.getD_some]
          cases hsec : op.lookup "security" with
          | none => rfl
          | some v =>
              cases v with
              | arr sec =>
                  have hns : ¬∃ s ∈ sec, ∃ reqs,
                      s.lookup sn = some (.arr reqs) ∧ Json.str sc ∈ reqs :=
                    fun hs => hne ⟨op, sec, hlookm, hsec, hs⟩
                  exact (scopesOfSec_spec sd sn sc sec sl).2.2.2 hns
              | null => rfl
              | bool b => rfl
              | num n => rfl
              | str s2 => rfl
              | obj o => rfl)
    (fun sl m hp => by
      simp only [scopesOfOp]
      obtain ⟨op, sec, hlookm, hsec, hs⟩ := hp
      simp only [hlookm, Option.getD_some, hsec]
      exact (scopesOfSec_spec sd sn sc sec sl).2.1 hs)
    ((pi.keys).filter (fun op => HTTP_METHODS.contains op)) sl
  refine ⟨h.1, ?_, h.2.2.1, ?_⟩
  · rintro ⟨m, op, sec, hmeth, hlookm, hsec, hs⟩
    refine h.2.1 ⟨m, ?_, op, sec, hlookm, hsec, hs⟩
    refine List.mem_filter.mpr ⟨mem_keys_of_lookup pi m op hlookm, ?_⟩
    simpa using hmeth
  · intro hno
    refine h.2.2.2 ?_
    rintro ⟨m, hmF, op, sec, hlookm, hsec, hs⟩
    have hmeth : m ∈ HTTP_METHODS := by
      have h2 := (List.mem_filter.mp hmF).2
      simpa using h2
    exact hno ⟨m, op, sec, hmeth, hlookm, hsec, hs⟩

theorem getEntry_map_keyed (g : String → Json → Json) (k : String) :
    ∀ l : List (String × Json),
      getEntry (l.map (fun kv => (kv.1, g kv.1 kv.2))) k = (getEntry l k).map (g k) := by
  intro l
  induction l with
  | nil => rfl
  | cons kv rest ih =>
      obtain ⟨k1, v1⟩ := kv
      by_cases hk : k1 = k
      · subst hk
        simp [getEntry]
      · simp [getEntry, hk, ih]

theorem getPath_cons_some (j : Json) (k : String) (ks : List String) (v : Json)
    (h : j.lookup k = some v) : getPath j (k :: ks) = getPath v ks := by
  show (match j.lookup k with | some w => getPath w ks | none => none) = getPath v ks
  rw [h]

theorem lookup_set_obj_self (l : List (String × Json)) (k : String) (v : Json) :
    ((Json.obj l).set k v).lookup k = some v := by
  simp only [Json.set, lookup_obj, getEntry_setEntry_self]

/-- C10: the scopes of a converted `openIdConnect` scheme are exactly the
scope names listed under that scheme's name in the `security` arrays of
operations stored under one of the eight HTTP method keys of a path item
(`security` under any other path-item key contributes nothing); each collected
scope maps to its description from the Scope Mapping when that is truthy and
otherwise to `TODO: describe the '<scope>' scope`; and the pass stores this
mapping at `flows.authorizationCode.scopes` of the converted scheme. -/
theorem convertSecuritySchemes_scopes :
    (∀ (doc sd : Json) (sn sc : String),
      ((∃ pk pi m op sec s reqs,
          ((doc.lookup "paths").getD .null).lookup pk = some pi
          ∧ m ∈ HTTP_METHODS
          ∧ pi.lookup m = some op
          ∧ op.lookup "security" = some (.arr sec)
          ∧ s ∈ sec
          ∧ s.lookup sn = some (.arr reqs)
          ∧ Json.str sc ∈ reqs) →
        (oauth2Scopes doc sd sn).lookup sc = some (scopeDesc sd sc))
      ∧ ((¬∃ pk pi m op sec s reqs,
          ((doc.lookup "paths").getD .null).lookup pk = some pi
          ∧ m ∈ HTTP_METHODS
          ∧ pi.lookup m = some op
          ∧ op.lookup "security" = some (.arr sec)
          ∧ s ∈ sec
          ∧ s.lookup sn = some (.arr reqs)
          ∧ Json.str sc ∈ reqs) →
        (oauth2Scopes doc sd sn).lookup sc = none))
  ∧ (∀ (sd : Json) (sc : String) (v : Json),
      sd.lookup sc = some v → v.truthy = true → scopeDesc sd sc = v)
  ∧ (∀ (sd : Json) (sc : String),
      ((sd.lookup sc).getD .null).truthy = false →
      scopeDesc sd sc = .str (todoScope sc))
  ∧ (∀ (dl : List (String × Json)) (sd : Json) (aU tU sn : String)
        (comps : Json) (schemes : List (String × Json)) (scheme : Json),
      getEntry dl "components" = some comps →
      comps.lookup "securitySchemes" = some (.obj schemes) →
      getEntry schemes sn = some scheme →
      isStrEq ((scheme.lookup "type").getD .null) "openIdConnect" = true →
      getPath (convertSecuritySchemes sd aU tU (.obj dl))
          ["components", "securitySchemes", sn, "flows", "authorizationCode", "scopes"]
        = some (oauth2Scopes (.obj dl) sd sn)) := by
  refine ⟨?_, ?_, ?_, ?_⟩
  · intro doc sd sn sc
    set paths := (doc.lookup "paths").getD .null with hpaths
    have h := foldScopes
      (fun scopes pk => scopesOfPathItem sd sn scopes ((paths.lookup pk).getD .null))
      (fun pk => ∃ pi, paths.lookup pk = some pi
          ∧ ∃ m op sec, m ∈ HTTP_METHODS ∧ pi.lookup m = some op
          ∧ op.lookup "security" = some (.arr sec)
          ∧ (∃ s ∈ sec, ∃ reqs, s.lookup sn = some (.arr reqs) ∧ Json.str sc ∈ reqs))
      (scopeDesc sd sc) sc
      (fun sl pk => by
        simp only []
        cases hlook : paths.lookup pk with
        | none => exact ⟨sl, rfl⟩
        | some pi =>
            obtain ⟨sl2, h2⟩ := (scopesOfPathItem_spec sd sn sc pi sl).1
            exact ⟨sl2, h2⟩)
      (fun sl pk hne => by
        simp only []
        cases hlook : paths.lookup pk with
        | none => rfl
        | some pi =>
            have hnp : ¬∃ m op sec, m ∈ HTTP_METHODS ∧ pi.lookup m = some op
                ∧ op.lookup "security" = some (.arr sec)
                ∧ (∃ s ∈ sec, ∃ reqs, s.lookup sn = some (.arr reqs) ∧ Json.str sc ∈ reqs) :=
              fun hp => hne ⟨pi, hlook, hp⟩
            exact (scopesOfPathItem_spec sd sn sc pi sl).2.2.2 hnp)
      (fun sl pk hp => by
        simp only []
        obtain ⟨pi, hlook, hrest⟩ := hp
        simp only [hlook, Option.getD_some]
        exact (scopesOfPathItem_spec sd sn sc pi sl).2.1 hrest)
      (paths.keys) []
    constructor
    · rintro ⟨pk, pi, m, op, sec, s, reqs, h1, h2, h3, h4, h5, h6, h7⟩
      exact h.2.1 ⟨pk, mem_keys_of_lookup paths pk pi h1,
        pi, h1, m, op, sec, h2, h3, h4, s, h5, reqs, h6, h7⟩
    · intro hno
      refine h.2.2.2 ?_
      rintro ⟨pk, _, pi, h1, m, op, sec, h2, h3, h4, s, h5, reqs, h6, h7⟩
      exact hno ⟨pk, pi, m, op, sec, s, reqs, h1, h2, h3, h4, h5, h6, h7⟩
  · intro sd sc v hl ht
    unfold scopeDesc
    simp only [hl]
    rw [if_pos ht]
  · intro sd sc hfalsy
    unfold scopeDesc
    cases hl : sd.lookup sc with
    | none => rfl
    | some v =>
        rw [hl, Option.getD_some] at hfalsy
        show (if v.truthy = true then v else Json.str (todoScope sc)) = Json.str (todoScope sc)
        rw [if_neg (by simp [hfalsy])]
  · intro dl sd aU tU sn comps schemes scheme hComp hSS hScheme hType
    obtain ⟨cl, rfl⟩ := lookup_some_obj comps "securitySchemes" (.obj schemes) hSS
    have hSchemeObj : ∃ scl, scheme = .obj scl := by
      rcases hT : scheme.lookup "type" with _ | tv
      · rw [hT] at hType
        simp [isStrEq] at hType
      · exact lookup_some_obj scheme "type" tv hT
    obtain ⟨scl, rfl⟩ := hSchemeObj
    rw [lookup_obj] at hSS
    have hconv : convertSecuritySchemes sd aU tU (.obj dl)
        = (Json.obj dl).set "components" ((Json.obj cl).set "securitySchemes"
            (.obj (schemes.map
              (fun kv => (kv.1, convertOneScheme (.obj dl) sd aU tU kv.1 kv.2))))) := by
      unfold convertSecuritySchemes
      simp only [lookup_obj, hComp, Json.truthy, eq_self_iff_true, if_true, hSS]
    rw [hconv]
    rw [getPath_cons_some _ _ _ _ (lookup_set_obj_self dl "components" _)]
    rw [getPath_cons_some _ _ _ _ (lookup_set_obj_self cl "securitySchemes" _)]
    have hsn : (Json.obj (schemes.map
          (fun kv => (kv.1, convertOneScheme (.obj dl) sd aU tU kv.1 kv.2)))).lookup sn
        = some (convertOneScheme (.obj dl) sd aU tU sn (.obj scl)) := by
      rw [lookup_obj]
      refine (getEntry_map_keyed
        (fun k v => convertOneScheme (.obj dl) sd aU tU k v) sn schemes).trans ?_
      rw [hScheme]
      rfl
    rw [getPath_cons_some _ _ _ _ hsn]
    have hone : convertOneScheme (.obj dl) sd aU tU sn (.obj scl)
        = ((Json.obj (delEntry (setEntry (setEntry scl "type" (Json.str "oauth2"))
              "description" (Json.str (oidcDescription (jsDisplay
                (((Json.obj scl).lookup "openIdConnectUrl").getD Json.null)))))
            "openIdConnectUrl")).set "flows"
          (Json.obj [("authorizationCode",
            Json.obj [("authorizationUrl", Json.str aU), ("tokenUrl", Json.str tU),
              ("scopes", oauth2Scopes (Json.obj dl) sd sn)])])) := by
      unfold convertOneScheme
      rw [if_pos hType]
      rfl
    rw [hone]
    rw [getPath_cons_some _ _ _ _ (lookup_set_obj_self _ "flows" _)]
    rfl

theorem convertSecuritySchemes_scopes_witness :
    (oauth2Scopes c10SecurityDoc c10ScopesMap "accessToken").lookup "thing/read"
      = some (scopeDesc c10ScopesMap "thing/read")
    ∧ scopeDesc c10ScopesMap "thing/read" = .str "Read things"
    ∧ scopeDesc c10ScopesMap "profile/read" = .str (todoScope "profile/read")
    ∧ getPath (convertSecuritySchemes c10ScopesMap "https://auth.example.com/authorize"
          "https://auth.example.com/token" c10SecurityDoc)
        ["components", "securitySchemes", "accessToken", "flows",
          "authorizationCode", "scopes"]
      = some (oauth2Scopes c10SecurityDoc c10ScopesMap "accessToken") := by
  refine ⟨?_, ?_, ?_, ?_⟩
  · exact (convertSecuritySchemes_scopes.1 c10SecurityDoc c10ScopesMap
        "accessToken" "thing/read").1
      ⟨"/things", _, "get", _, _, _, _, rfl, by decide, rfl, rfl,
        List.mem_cons_self _ _, rfl, List.mem_cons_self _ _⟩
  · exact convertSecuritySchemes_scopes.2.1 c10ScopesMap "thing/read"
      (.str "Read things") rfl rfl
  · exact convertSecuritySchemes_scopes.2.2.1 c10ScopesMap "profile/read" rfl
  · exact convertSecuritySchemes_scopes.2.2.2 _ c10ScopesMap _ _ "accessToken"
      _ _ _ rfl rfl rfl rfl

/-! Identity framework for the pipeline on already-3.0 documents (C9). -/

theorem deepLe_str (f : Nat) (s : String) : deepLe f (.str s) = true := by
  cases f <;> rfl

theorem allNodesHold_str (p : Json → Bool) (f : Nat) (s : String) :
    allNodesHold p f (.str s) = true := by
  cases f <;> rfl

theorem delEntry_of_getEntry_none (k : String) :
    ∀ l : List (String × Json), getEntry l k = none → delEntry l k = l := by
  intro l
  induction l with
  | nil => intro _; rfl
  | cons kv rest ih =>
      intro h
      obtain ⟨k1, v1⟩ := kv
      by_cases hk : k1 = k
      · subst hk
        simp [getEntry] at h
      · simp only [getEntry, hk, if_neg hk] at h ⊢
        rw [delEntry, if_neg hk, ih h]

theorem del_of_lookup_none (j : Json) (k : String) (h : j.lookup k = none) :
    j.del k = j := by
  cases j with
  | obj l =>
      rw [lookup_obj] at h
      simp only [Json.del]
      rw [delEntry_of_getEntry_none k l h]
  | _ => rfl

theorem foldl_fixed {α β : Type} (g : α → β → α) (a : α) :
    ∀ l : List β, (∀ b ∈ l, g a b = a) → l.foldl g a = a := by
  intro l
  induction l with
  | nil => intro _; rfl
  | cons b rest ih =>
      intro h
      rw [List.foldl_cons, h b (List.mem_cons_self b rest)]
      exact ih (fun x hx => h x (List.mem_cons_of_mem _ hx))

theorem foldr_entries_id (g : Json → Json × Nat) :
    ∀ l : List (String × Json),
      (∀ kv ∈ l, kv.2.isContainer = true → g kv.2 = (kv.2, 0)) →
      l.foldr (fun kv acc =>
          let r := if kv.2.isContainer then g kv.2 else (kv.2, 0)
          ((kv.1, r.1) :: acc.1, r.2 + acc.2))
        (([] : List (String × Json)), 0) = (l, 0) := by
  intro l
  induction l with
  | nil => intro _; rfl
  | cons kv rest ih =>
      intro h
      rw [List.foldr_cons, ih (fun x hx hc => h x (List.mem_cons_of_mem _ hx) hc)]
      obtain ⟨k1, v1⟩ := kv
      by_cases hc : v1.isContainer = true
      · show (let r := if v1.isContainer then g v1 else (v1, 0)
              (((k1, r.1) :: rest : List (String × Json)), r.2 + 0)) = ((k1, v1) :: rest, 0)
        rw [if_pos hc, h (k1, v1) (List.mem_cons_self _ rest) hc]
      · show (let r := if v1.isContainer then g v1 else (v1, 0)
              (((k1, r.1) :: rest : List (String × Json)), r.2 + 0)) = ((k1, v1) :: rest, 0)
        rw [if_neg hc]

theorem foldr_entries_all_id (g : Json → Json × Nat) :
    ∀ l : List (String × Json), (∀ kv ∈ l, g kv.2 = (kv.2, 0)) →
      l.foldr (fun kv acc => let r := g kv.2; ((kv.1, r.1) :: acc.1, r.2 + acc.2))
        (([] : List (String × Json)), 0) = (l, 0) := by
  intro l
  induction l with
  | nil => intro _; rfl
  | cons kv rest ih =>
      intro h
      rw [List.foldr_cons, ih (fun x hx => h x (List.mem_cons_of_mem _ hx))]
      obtain ⟨k1, v1⟩ := kv
      show (let r := g v1
            (((k1, r.1) :: rest : List (String × Json)), r.2 + 0)) = ((k1, v1) :: rest, 0)
      rw [h (k1, v1) (List.mem_cons_self _ rest)]

theorem foldr_elems_id (g : Json → Json × Nat) :
    ∀ l : List Json, (∀ e ∈ l, g e = (e, 0)) →
      l.foldr (fun e acc => let r := g e; (r.1 :: acc.1, r.2 + acc.2))
        (([] : List Json), 0) = (l, 0) := by
  intro l
  induction l with
  | nil => intro _; rfl
  | cons e rest ih =>
      intro h
      rw [List.foldr_cons, ih (fun x hx => h x (List.mem_cons_of_mem _ hx))]
      show (let r := g e
            ((r.1 :: rest : List Json), r.2 + 0)) = (e :: rest, 0)
      rw [h e (List.mem_cons_self e rest)]

theorem foldr_elems_guard_id (g : Json → Json × Nat) :
    ∀ l : List Json, (∀ e ∈ l, e.isContainer = true → g e = (e, 0)) →
      l.foldr (fun e acc =>
          let r := if e.isContainer then g e else (e, 0)
          (r.1 :: acc.1, r.2 + acc.2))
        (([] : List Json), 0) = (l, 0) := by
  intro l
  induction l with
  | nil => intro _; rfl
  | cons e rest ih =>
      intro h
      rw [List.foldr_cons, ih (fun x hx hc => h x (List.mem_cons_of_mem _ hx) hc)]
      by_cases hc : e.isContainer = true
      · show (let r := if e.isContainer then g e else (e, 0)
              ((r.1 :: rest : List Json), r.2 + 0)) = (e :: rest, 0)
        rw [if_pos hc, h e (List.mem_cons_self e rest) hc]
      · show (let r := if e.isContainer then g e else (e, 0)
              ((r.1 :: rest : List Json), r.2 + 0)) = (e :: rest, 0)
        rw [if_neg hc]

theorem deepLe_obj_mem (f : Nat) (l : List (String × Json))
    (h : deepLe (f+1) (.obj l) = true) : ∀ kv ∈ l, deepLe f kv.2 = true := by
  intro kv hm
  have h2 : l.all (fun kv => deepLe f kv.2) = true := h
  rw [List.all_eq_true] at h2
  exact h2 kv hm

theorem deepLe_arr_mem (f : Nat) (l : List Json)
    (h : deepLe (f+1) (.arr l) = true) : ∀ e ∈ l, deepLe f e = true := by
  intro e hm
  have h2 : l.all (fun e => deepLe f e) = true := h
  rw [List.all_eq_true] at h2
  exact h2 e hm

theorem allNodesHold_obj_self (p : Json → Bool) (f : Nat) (l : List (String × Json))
    (h : allNodesHold p (f+1) (.obj l) = true) : p (.obj l) = true := by
  have h2 : (p (.obj l) && l.all (fun kv => allNodesHold p f kv.2)) = true := h
  simp only [Bool.and_eq_true] at h2
  exact h2.1

theorem allNodesHold_obj_mem (p : Json → Bool) (f : Nat) (l : List (String × Json))
    (h : allNodesHold p (f+1) (.obj l) = true) :
    ∀ kv ∈ l, allNodesHold p f kv.2 = true := by
  intro kv hm
  have h2 : (p (.obj l) && l.all (fun kv => allNodesHold p f kv.2)) = true := h
  simp only [Bool.and_eq_true] at h2
  have h3 := h2.2
  rw [List.all_eq_true] at h3
  exact h3 kv hm

theorem allNodesHold_arr_mem (p : Json → Bool) (f : Nat) (l : List Json)
    (h : allNodesHold p (f+1) (.arr l) = true) :
    ∀ e ∈ l, allNodesHold p f e = true := by
  intro e hm
  have h2 : l.all (fun e => allNodesHold p f e) = true := h
  rw [List.all_eq_true] at h2
  exact h2 e hm

theorem mem_setEntry (k : String) (v : Json) :
    ∀ l : List (String × Json), ∀ kv ∈ setEntry l k v, kv ∈ l ∨ kv = (k, v) := by
  intro l
  induction l with
  | nil =>
      intro kv hm
      simp [setEntry] at hm
      exact Or.inr hm
  | cons hd rest ih =>
      intro kv hm
      obtain ⟨k1, v1⟩ := hd
      by_cases hk : k1 = k
      · subst hk
        rw [setEntry, if_pos rfl] at hm
        rcases List.mem_cons.mp hm with h | h
        · exact Or.inr h
        · exact Or.inl (List.mem_cons_of_mem _ h)
      · rw [setEntry, if_neg hk] at hm
        rcases List.mem_cons.mp hm with h | h
        · exact Or.inl (h ▸ List.mem_cons_self _ _)
        · rcases ih kv h with h2 | h2
          · exact Or.inl (List.mem_cons_of_mem _ h2)
          · exact Or.inr h2

theorem plainNode_spec (l : List (String × Json)) (h : plainNode (.obj l) = true) :
    (isRef (.obj l) = false ∨ l.length = 1)
    ∧ (∀ first rest, getEntry l "examples" ≠ some (.arr (first :: rest)))
    ∧ getEntry l "const" = none
    ∧ getEntry l "contentEncoding" = none
    ∧ getEntry l "contentMediaType" = none
    ∧ getEntry l "$comment" = none
    ∧ getEntry l "$id" = none
    ∧ getEntry l "$schema" = none
    ∧ getEntry l "unevaluatedProperties" = none
    ∧ getEntry l "patternProperties" = none
    ∧ getEntry l "propertyNames" = none
    ∧ (∀ ts, getEntry l "type" ≠ some (.arr ts))
    ∧ (∀ v, getEntry l "oneOf" = some v →
        ∃ ms, v = .arr ms ∧ ∀ m ∈ ms, isNullMarker m = false) := by
  unfold plainNode at h
  simp only [Bool.and_eq_true] at h
  obtain ⟨⟨⟨⟨⟨⟨⟨⟨⟨⟨⟨⟨h1, h2⟩, h3⟩, h4⟩, h5⟩, h6⟩, h7⟩, h8⟩, h9⟩, h10⟩, h11⟩, h12⟩, h13⟩ := h
  refine ⟨?_, ?_, Option.isNone_iff_eq_none.mp h3, Option.isNone_iff_eq_none.mp h4,
    Option.isNone_iff_eq_none.mp h5, Option.isNone_iff_eq_none.mp h6,
    Option.isNone_iff_eq_none.mp h7, Option.isNone_iff_eq_none.mp h8,
    Option.isNone_iff_eq_none.mp h9, Option.isNone_iff_eq_none.mp h10,
    Option.isNone_iff_eq_none.mp h11, ?_, ?_⟩
  · by_cases hr : isRef (.obj l) = true
    · rw [hr] at h1
      simp at h1
      exact Or.inr h1
    · exact Or.inl (Bool.eq_false_iff.mpr hr)
  · intro first rest hq
    rw [hq] at h2
    simp at h2
  · intro ts hq
    rw [hq] at h12
    simp at h12
  · intro v hq
    rw [hq] at h13
    cases v with
    | arr ms =>
        refine ⟨ms, rfl, ?_⟩
        intro m hm
        have h14 : ms.all (fun v => !isNullMarker v) = true := h13
        rw [List.all_eq_true] at h14
        have h15 := h14 m hm
        simpa using h15
    | null => simp at h13
    | bool b => simp at h13
    | num n => simp at h13
    | str s => simp at h13
    | obj o => simp at h13

theorem walkObject_id (P : Json → Bool) (t : Json → Json × Nat) (B : Nat)
    (ht : ∀ fv l, fv + 1 ≤ B → deepLe (fv+1) (.obj l) = true →
        allNodesHold P (fv+1) (.obj l) = true → t (.obj l) = (.obj l, 0)) :
    ∀ fv, fv ≤ B → ∀ j, deepLe fv j = true → allNodesHold P fv j = true →
      ∀ F, walkObject t F j = (j, 0) := by
  intro fv
  induction fv with
  | zero =>
      intro _ j hd hp F
      cases F with
      | zero => rfl
      | succ F2 =>
          cases j with
          | obj l => simp [deepLe] at hd
          | arr l => simp [deepLe] at hd
          | null => rfl
          | bool b => rfl
          | num n => rfl
          | str s => rfl
  | succ fv ih =>
      intro hB j hd hp F
      cases F with
      | zero => rfl
      | succ F2 =>
          cases j with
          | obj l =>
              have hfold := foldr_entries_id (walkObject t F2) l
                (fun kv hm _ => ih (Nat.le_of_succ_le hB) kv.2
                  (deepLe_obj_mem fv l hd kv hm) (allNodesHold_obj_mem P fv l hp kv hm) F2)
              show (let w := l.foldr (fun kv acc => let r := if kv.2.isContainer then walkObject t F2 kv.2 else (kv.2, 0); ((kv.1, r.1) :: acc.1, r.2 + acc.2)) (([] : List (String × Json)), 0); let r := t (.obj w.1); (r.1, w.2 + r.2)) = (.obj l, 0)
              rw [hfold]
              show ((t (.obj l)).1, 0 + (t (.obj l)).2) = (.obj l, 0)
              rw [ht fv l hB hd hp]
              rfl
          | arr l =>
              have hfold := foldr_elems_id (walkObject t F2) l
                (fun e hm => ih (Nat.le_of_succ_le hB) e
                  (deepLe_arr_mem fv l hd e hm) (allNodesHold_arr_mem P fv l hp e hm) F2)
              show (let w := l.foldr (fun e acc => let r := walkObject t F2 e; (r.1 :: acc.1, r.2 + acc.2)) (([] : List Json), 0); ((.arr w.1 : Json), w.2)) = (.arr l, 0)
              rw [hfold]
          | null => rfl
          | bool b => rfl
          | num n => rfl
          | str s => rfl

theorem schemaLocator_id (P : Json → Bool) (sv : Json → Json × Nat) (B : Nat)
    (hsv : ∀ fv j, fv ≤ B → deepLe fv j = true → allNodesHold P fv j = true →
        sv j = (j, 0)) :
    ∀ fv l, fv + 1 ≤ B → deepLe (fv+1) (.obj l) = true →
      allNodesHold P (fv+1) (.obj l) = true →
      schemaLocator sv (.obj l) = (.obj l, 0) := by
  intro fv l hB hd hp
  cases hq1 : getEntry l "schema" with
  | none =>
      cases hq2 : getEntry l "schemas" with
      | none =>
          unfold schemaLocator
          simp [hq1, hq2]
      | some v2 =>
          cases v2 with
          | obj m =>
              have hdm : deepLe fv (.obj m) = true :=
                deepLe_obj_mem fv l hd ("schemas", .obj m) (getEntry_mem _ _ _ hq2)
              have hpm : allNodesHold P fv (.obj m) = true :=
                allNodesHold_obj_mem P fv l hp ("schemas", .obj m) (getEntry_mem _ _ _ hq2)
              cases fv with
              | zero => simp [deepLe] at hdm
              | succ fv2 =>
                  have hmap : mapEntriesCount sv m = (m, 0) := by
                    unfold mapEntriesCount
                    exact foldr_entries_all_id sv m (fun kv hm =>
                      hsv fv2 kv.2
                        (le_trans (Nat.le_succ fv2) (Nat.le_of_succ_le hB))
                        (deepLe_obj_mem fv2 m hdm kv hm)
                        (allNodesHold_obj_mem P fv2 m hpm kv hm))
                  unfold schemaLocator
                  simp [hq1, hq2, hmap, setEntry_of_getEntry "schemas" (.obj m) l hq2]
          | arr a =>
              have hda : deepLe fv (.arr a) = true :=
                deepLe_obj_mem fv l hd ("schemas", .arr a) (getEntry_mem _ _ _ hq2)
              have hpa : allNodesHold P fv (.arr a) = true :=
                allNodesHold_obj_mem P fv l hp ("schemas", .arr a) (getEntry_mem _ _ _ hq2)
              cases fv with
              | zero => simp [deepLe] at hda
              | succ fv2 =>
                  have hmap : mapElemsCount sv a = (a, 0) := by
                    unfold mapElemsCount
                    exact foldr_elems_id sv a (fun e hm =>
                      hsv fv2 e
                        (le_trans (Nat.le_succ fv2) (Nat.le_of_succ_le hB))
                        (deepLe_arr_mem fv2 a hda e hm)
                        (allNodesHold_arr_mem P fv2 a hpa e hm))
                  unfold schemaLocator
                  simp [hq1, hq2, hmap, setEntry_of_getEntry "schemas" (.arr a) l hq2]
          | null =>
              unfold schemaLocator
              simp [hq1, hq2]
          | bool b =>
              unfold schemaLocator
              simp [hq1, hq2]
          | num n =>
              unfold schemaLocator
              simp [hq1, hq2]
          | str s =>
              unfold schemaLocator
              simp [hq1, hq2]
  | some v =>
      have hv := hsv fv v (Nat.le_of_succ_le hB)
        (deepLe_obj_mem fv l hd ("schema", v) (getEntry_mem _ _ _ hq1))
        (allNodesHold_obj_mem P fv l hp ("schema", v) (getEntry_mem _ _ _ hq1))
      have hset : setEntry l "schema" v = l := setEntry_of_getEntry "schema" v l hq1
      cases hq2 : getEntry l "schemas" with
      | none =>
          unfold schemaLocator
          simp [hq1, hq2, hv, hset]
      | some v2 =>
          cases v2 with
          | obj m =>
              have hdm : deepLe fv (.obj m) = true :=
                deepLe_obj_mem fv l hd ("schemas", .obj m) (getEntry_mem _ _ _ hq2)
              have hpm : allNodesHold P fv (.obj m) = true :=
                allNodesHold_obj_mem P fv l hp ("schemas", .obj m) (getEntry_mem _ _ _ hq2)
              cases fv with
              | zero => simp [deepLe] at hdm
              | succ fv2 =>
                  have hmap : mapEntriesCount sv m = (m, 0) := by
                    unfold mapEntriesCount
                    exact foldr_entries_all_id sv m (fun kv hm =>
                      hsv fv2 kv.2
                        (le_trans (Nat.le_succ fv2) (Nat.le_of_succ_le hB))
                        (deepLe_obj_mem fv2 m hdm kv hm)
                        (allNodesHold_obj_mem P fv2 m hpm kv hm))
                  unfold schemaLocator
                  simp [hq1, hq2, hv, hset, hmap,
                    setEntry_of_getEntry "schemas" (.obj m) l hq2]
          | arr a =>
              have hda : deepLe fv (.arr a) = true :=
                deepLe_obj_mem fv l hd ("schemas", .arr a) (getEntry_mem _ _ _ hq2)
              have hpa : allNodesHold P fv (.arr a) = true :=
                allNodesHold_obj_mem P fv l hp ("schemas", .arr a) (getEntry_mem _ _ _ hq2)
              cases fv with
              | zero => simp [deepLe] at hda
              | succ fv2 =>
                  have hmap : mapElemsCount sv a = (a, 0) := by
                    unfold mapElemsCount
                    exact foldr_elems_id sv a (fun e hm =>
                      hsv fv2 e
                        (le_trans (Nat.le_succ fv2) (Nat.le_of_succ_le hB))
                        (deepLe_arr_mem fv2 a hda e hm)
                        (allNodesHold_arr_mem P fv2 a hpa e hm))
                  unfold schemaLocator
                  simp [hq1, hq2, hv, hset, hmap,
                    setEntry_of_getEntry "schemas" (.arr a) l hq2]
          | null =>
              unfold schemaLocator
              simp [hq1, hq2, hv, hset]
          | bool b =>
              unfold schemaLocator
              simp [hq1, hq2, hv, hset]
          | num n =>
              unfold schemaLocator
              simp [hq1, hq2, hv, hset]
          | str s =>
              unfold schemaLocator
              simp [hq1, hq2, hv, hset]


theorem visitSchemaObjects_id (P : Json → Bool) (sv : Json → Json × Nat) (B : Nat)
    (hsv : ∀ fv j, fv ≤ B → deepLe fv j = true → allNodesHold P fv j = true →
        sv j = (j, 0)) :
    ∀ fv, fv ≤ B → ∀ j, deepLe fv j = true → allNodesHold P fv j = true →
      ∀ F, visitSchemaObjects sv F j = (j, 0) := by
  intro fv hB j hd hp F
  unfold visitSchemaObjects
  exact walkObject_id P (schemaLocator sv) B
    (fun fv2 l2 hB2 hd2 hp2 => schemaLocator_id P sv B hsv fv2 l2 hB2 hd2 hp2)
    fv hB j hd hp F

theorem mkSchemaVisitor_id (P : Json → Bool) (step : Json → Json × Nat)
    (hstep : ∀ fv j, deepLe fv j = true → allNodesHold P fv j = true →
        step j = (j, 0)) :
    ∀ B fv, fv ≤ B → ∀ j, deepLe fv j = true → allNodesHold P fv j = true →
      ∀ F, mkSchemaVisitor step F j = (j, 0) := by
  intro B
  induction B with
  | zero =>
      intro fv hB j hd hp F
      have hfv : fv = 0 := Nat.le_zero.mp hB
      subst hfv
      cases F with
      | zero => rfl
      | succ F2 =>
          have hst := hstep 0 j hd hp
          have hbody : mkSchemaVisitor step (F2+1) j
              = (let r := step j; let w := walkNestedSchemaObjects (mkSchemaVisitor step F2) F2 r.1; (w.1, r.2 + w.2)) := rfl
          rw [hbody, hst]
          show ((walkNestedSchemaObjects (mkSchemaVisitor step F2) F2 j).1,
                0 + (walkNestedSchemaObjects (mkSchemaVisitor step F2) F2 j).2) = (j, 0)
          cases j with
          | obj l => simp [deepLe] at hd
          | arr l => simp [deepLe] at hd
          | null => rfl
          | bool b => rfl
          | num n => rfl
          | str s => rfl
  | succ B ih =>
      intro fv hB j hd hp F
      cases F with
      | zero => rfl
      | succ F2 =>
          have hst := hstep fv j hd hp
          have hbody : mkSchemaVisitor step (F2+1) j
              = (let r := step j; let w := walkNestedSchemaObjects (mkSchemaVisitor step F2) F2 r.1; (w.1, r.2 + w.2)) := rfl
          rw [hbody, hst]
          show ((walkNestedSchemaObjects (mkSchemaVisitor step F2) F2 j).1,
                0 + (walkNestedSchemaObjects (mkSchemaVisitor step F2) F2 j).2) = (j, 0)
          have hwn : walkNestedSchemaObjects (mkSchemaVisitor step F2) F2 j = (j, 0) := by
            cases j with
            | obj l =>
                cases fv with
                | zero => simp [deepLe] at hd
                | succ fvn =>
                    have hfold := foldr_entries_id
                      (walkObject (mkSchemaVisitor step F2) F2) l
                      (fun kv hm _ => walkObject_id P (mkSchemaVisitor step F2) B
                        (fun fv2 l2 hB2 hd2 hp2 => ih (fv2+1) hB2 (.obj l2) hd2 hp2 F2)
                        fvn (Nat.succ_le_succ_iff.mp hB) kv.2
                        (deepLe_obj_mem fvn l hd kv hm)
                        (allNodesHold_obj_mem P fvn l hp kv hm) F2)
                    show (let w := l.foldr (fun kv acc => let r := if kv.2.isContainer then walkObject (mkSchemaVisitor step F2) F2 kv.2 else (kv.2, 0); ((kv.1, r.1) :: acc.1, r.2 + acc.2)) (([] : List (String × Json)), 0); ((.obj w.1 : Json), w.2)) = (.obj l, 0)
                    rw [hfold]
            | arr l =>
                cases fv with
                | zero => simp [deepLe] at hd
                | succ fvn =>
                    have hfold := foldr_elems_guard_id
                      (walkObject (mkSchemaVisitor step F2) F2) l
                      (fun e hm _ => walkObject_id P (mkSchemaVisitor step F2) B
                        (fun fv2 l2 hB2 hd2 hp2 => ih (fv2+1) hB2 (.obj l2) hd2 hp2 F2)
                        fvn (Nat.succ_le_succ_iff.mp hB) e
                        (deepLe_arr_mem fvn l hd e hm)
                        (allNodesHold_arr_mem P fvn l hp e hm) F2)
                    show (let w := l.foldr (fun e acc => let r := if e.isContainer then walkObject (mkSchemaVisitor step F2) F2 e else (e, 0); (r.1 :: acc.1, r.2 + acc.2)) (([] : List Json), 0); ((.arr w.1 : Json), w.2)) = (.arr l, 0)
                    rw [hfold]
            | null => rfl
            | bool b => rfl
            | num n => rfl
            | str s => rfl
          rw [hwn]
          rfl

theorem examplesVisit_id (delOpt : Bool) :
    ∀ B fv, fv ≤ B → ∀ j, deepLe fv j = true → allNodesHold plainNode fv j = true →
      ∀ F, examplesVisit delOpt F j = (j, 0) := by
  intro B
  induction B with
  | zero =>
      intro fv hB j hd hp F
      have hfv : fv = 0 := Nat.le_zero.mp hB
      subst hfv
      cases F with
      | zero => rfl
      | succ F2 =>
          cases j with
          | obj l => simp [deepLe] at hd
          | arr l => simp [deepLe] at hd
          | null => rfl
          | bool b => rfl
          | num n => rfl
          | str s => rfl
  | succ B ih =>
      intro fv hB j hd hp F
      cases F with
      | zero => rfl
      | succ F2 =>
          cases j with
          | null => rfl
          | bool b => rfl
          | num n => rfl
          | str s => rfl
          | arr l =>
              cases fv with
              | zero => simp [deepLe] at hd
              | succ fvn =>
                  have hfold := foldr_elems_guard_id
                    (walkObject (examplesVisit delOpt F2) F2) l
                    (fun e hm _ => walkObject_id plainNode (examplesVisit delOpt F2) B
                      (fun fv2 l2 hB2 hd2 hp2 => ih (fv2+1) hB2 (.obj l2) hd2 hp2 F2)
                      fvn (Nat.succ_le_succ_iff.mp hB) e
                      (deepLe_arr_mem fvn l hd e hm)
                      (allNodesHold_arr_mem plainNode fvn l hp e hm) F2)
                  show (let w := l.foldr (fun e acc => let r := if e.isContainer then walkObject (examplesVisit delOpt F2) F2 e else (e, 0); (r.1 :: acc.1, r.2 + acc.2)) (([] : List Json), 0); ((.arr w.1 : Json), w.2)) = (.arr l, 0)
                  rw [hfold]
          | obj l =>
              cases fv with
              | zero => simp [deepLe] at hd
              | succ fvn =>
                  have hstep : ∀ key ∈ l.map (fun kv => kv.1),
                      examplesFoldStep delOpt (walkObject (examplesVisit delOpt F2) F2)
                        (l, 0) key = (l, 0) := by
                    intro key hkey
                    show (match getEntry l key with
                        | none => ((l : List (String × Json)), 0)
                        | some v =>
                            if v.isContainer then
                              if key = "examples" then
                                match v with
                                | .arr (first :: _) => let st1 := delEntry l "examples"; if delOpt && hasIdObj first then ((st1 : List (String × Json)), 0) else (setEntry st1 "example" first, 0)
                                | _ => ((l : List (String × Json)), 0)
                              else let r := walkObject (examplesVisit delOpt F2) F2 v; ((setEntry l key r.1 : List (String × Json)), 0 + r.2)
                            else ((l : List (String × Json)), 0)) = ((l : List (String × Json)), 0)
                    cases hq : getEntry l key with
                    | none => rfl
                    | some v =>
                        show (if v.isContainer = true then
                              if key = "examples" then
                                match v with
                                | .arr (first :: _) => let st1 := delEntry l "examples"; if delOpt && hasIdObj first then ((st1 : List (String × Json)), 0) else (setEntry st1 "example" first, 0)
                                | _ => ((l : List (String × Json)), 0)
                              else let r := walkObject (examplesVisit delOpt F2) F2 v; ((setEntry l key r.1 : List (String × Json)), 0 + r.2)
                            else ((l : List (String × Json)), 0)) = ((l : List (String × Json)), 0)
                        by_cases hc : v.isContainer = true
                        · rw [if_pos hc]
                          by_cases hex : key = "examples"
                          · rw [if_pos hex]
                            cases v with
                            | arr ms =>
                                cases ms with
                                | nil => rfl
                                | cons first rest2 =>
                                    have hspec := plainNode_spec l
                                      (allNodesHold_obj_self plainNode fvn l hp)
                                    exact absurd (hex ▸ hq) (hspec.2.1 first rest2)
                            | obj o => rfl
                            | null => rfl
                            | bool b2 => rfl
                            | num n2 => rfl
                            | str s2 => rfl
                          · rw [if_neg hex]
                            have hwv := walkObject_id plainNode (examplesVisit delOpt F2) B
                              (fun fv2 l2 hB2 hd2 hp2 => ih (fv2+1) hB2 (.obj l2) hd2 hp2 F2)
                              fvn (Nat.succ_le_succ_iff.mp hB) v
                              (deepLe_obj_mem fvn l hd (key, v) (getEntry_mem _ _ _ hq))
                              (allNodesHold_obj_mem plainNode fvn l hp (key, v)
                                (getEntry_mem _ _ _ hq)) F2
                            rw [hwv]
                            show ((setEntry l key v : List (String × Json)), 0 + 0) = (l, 0)
                            rw [setEntry_of_getEntry key v l hq]
                        · rw [if_neg hc]
                  show ((.obj ((l.map (fun kv => kv.1)).foldl (examplesFoldStep delOpt (walkObject (examplesVisit delOpt F2) F2)) (l, 0)).1 : Json), ((l.map (fun kv => kv.1)).foldl (examplesFoldStep delOpt (walkObject (examplesVisit delOpt F2) F2)) (l, 0)).2) = (.obj l, 0)
                  rw [foldl_fixed (examplesFoldStep delOpt (walkObject (examplesVisit delOpt F2) F2)) (l, 0) (l.map (fun kv => kv.1)) hstep]

theorem convertConstToEnumStep_id : ∀ fv j, deepLe fv j = true →
    allNodesHold plainNode fv j = true → convertConstToEnumStep j = (j, 0) := by
  intro fv j hd hp
  cases j with
  | obj l =>
      cases fv with
      | zero => simp [deepLe] at hd
      | succ fvn =>
          obtain ⟨href, hex, hconst, hce, hcm, hcmt, hid, hschema, hunev, hpat,
            hprop, htype, honeOf⟩ := plainNode_spec l (allNodesHold_obj_self plainNode fvn l hp)
          unfold convertConstToEnumStep
          simp [lookup_obj, hconst]
  | null => rfl
  | bool b => rfl
  | num n => rfl
  | str s => rfl
  | arr a => rfl

theorem convertNullableTypeArrayStep_id : ∀ fv j, deepLe fv j = true →
    allNodesHold plainNode fv j = true → convertNullableTypeArrayStep j = (j, 0) := by
  intro fv j hd hp
  cases j with
  | obj l =>
      cases fv with
      | zero => simp [deepLe] at hd
      | succ fvn =>
          obtain ⟨href, hex, hconst, hce, hcm, hcmt, hid, hschema, hunev, hpat,
            hprop, htype, honeOf⟩ := plainNode_spec l (allNodesHold_obj_self plainNode fvn l hp)
          cases hq : getEntry l "type" with
          | none =>
              unfold convertNullableTypeArrayStep
              simp [lookup_obj, hq]
          | some v =>
              cases v with
              | arr ts => exact absurd hq (htype ts)
              | null =>
                  unfold convertNullableTypeArrayStep
                  simp [lookup_obj, hq]
              | bool b =>
                  unfold convertNullableTypeArrayStep
                  simp [lookup_obj, hq]
              | num n =>
                  unfold convertNullableTypeArrayStep
                  simp [lookup_obj, hq]
              | str s =>
                  unfold convertNullableTypeArrayStep
                  simp [lookup_obj, hq]
              | obj o =>
                  unfold convertNullableTypeArrayStep
                  simp [lookup_obj, hq]
  | null => rfl
  | bool b => rfl
  | num n => rfl
  | str s => rfl
  | arr a => rfl

theorem contentEncodingStep_id : ∀ fv j, deepLe fv j = true →
    allNodesHold plainNode fv j = true → contentEncodingStep j = (j, 0) := by
  intro fv j hd hp
  cases j with
  | obj l =>
      cases fv with
      | zero => simp [deepLe] at hd
      | succ fvn =>
          obtain ⟨href, hex, hconst, hce, hcm, hcmt, hid, hschema, hunev, hpat,
            hprop, htype, honeOf⟩ := plainNode_spec l (allNodesHold_obj_self plainNode fvn l hp)
          unfold contentEncodingStep
          rw [if_neg (by simp [Json.hasKey, Json.lookup, hce])]
  | null => rfl
  | bool b => rfl
  | num n => rfl
  | str s => rfl
  | arr a => rfl

theorem contentMediaTypeStep_id : ∀ fv j, deepLe fv j = true →
    allNodesHold plainNode fv j = true → contentMediaTypeStep j = (j, 0) := by
  intro fv j hd hp
  cases j with
  | obj l =>
      cases fv with
      | zero => simp [deepLe] at hd
      | succ fvn =>
          obtain ⟨href, hex, hconst, hce, hcm, hcmt, hid, hschema, hunev, hpat,
            hprop, htype, honeOf⟩ := plainNode_spec l (allNodesHold_obj_self plainNode fvn l hp)
          unfold contentMediaTypeStep
          rw [if_neg (by simp [Json.hasKey, Json.lookup, hcm])]
  | null => rfl
  | bool b => rfl
  | num n => rfl
  | str s => rfl
  | arr a => rfl

theorem convertNullableOneOfStep_id (d : Json) (fl : Nat) : ∀ fv j, deepLe fv j = true →
    allNodesHold plainNode fv j = true → convertNullableOneOfStep d fl j = (j, 0) := by
  intro fv j hd hp
  cases j with
  | obj l =>
      cases fv with
      | zero => simp [deepLe] at hd
      | succ fvn =>
          obtain ⟨href, hex, hconst, hce, hcm, hcmt, hid, hschema, hunev, hpat,
            hprop, htype, honeOf⟩ := plainNode_spec l (allNodesHold_obj_self plainNode fvn l hp)
          cases hq : getEntry l "oneOf" with
          | none =>
              unfold convertNullableOneOfStep
              simp [lookup_obj, hq]
          | some v =>
              obtain ⟨ms, rfl, hmarkers⟩ := honeOf v hq
              have hfilter : ms.filter (fun v => !isNullMarker v) = ms :=
                List.filter_eq_self.mpr (fun m hm => by simp [hmarkers m hm])
              unfold convertNullableOneOfStep
              simp only [lookup_obj, hq, hfilter]
              rw [if_neg (lt_irrefl ms.length)]
  | null => rfl
  | bool b => rfl
  | num n => rfl
  | str s => rfl
  | arr a => rfl

theorem removeKeywordsStep_id : ∀ fv j, deepLe fv j = true →
    allNodesHold plainNode fv j = true → removeKeywordsStep j = (j, 0) := by
  intro fv j hd hp
  cases j with
  | obj l =>
      cases fv with
      | zero => simp [deepLe] at hd
      | succ fvn =>
          obtain ⟨href, hex, hconst, hce, hcm, hcmt, hid, hschema, hunev, hpat,
            hprop, htype, honeOf⟩ := plainNode_spec l (allNodesHold_obj_self plainNode fvn l hp)
          have d1 : (Json.obj l).del "$id" = .obj l :=
            del_of_lookup_none _ _ (by rw [lookup_obj]; exact hid)
          have d2 : (Json.obj l).del "$schema" = .obj l :=
            del_of_lookup_none _ _ (by rw [lookup_obj]; exact hschema)
          have d3 : (Json.obj l).del "unevaluatedProperties" = .obj l :=
            del_of_lookup_none _ _ (by rw [lookup_obj]; exact hunev)
          have d4 : (Json.obj l).del "contentMediaType" = .obj l :=
            del_of_lookup_none _ _ (by rw [lookup_obj]; exact hcm)
          have d5 : (Json.obj l).del "patternProperties" = .obj l :=
            del_of_lookup_none _ _ (by rw [lookup_obj]; exact hpat)
          have d6 : (Json.obj l).del "propertyNames" = .obj l :=
            del_of_lookup_none _ _ (by rw [lookup_obj]; exact hprop)
          show (((((((Json.obj l).del "$id").del "$schema").del "unevaluatedProperties").del "contentMediaType").del "patternProperties").del "propertyNames", 0) = (.obj l, 0)
          rw [d1, d2, d3, d4, d5, d6]
  | null => rfl
  | bool b => rfl
  | num n => rfl
  | str s => rfl
  | arr a => rfl

theorem deleteCommentStep_id : ∀ fv j, deepLe fv j = true →
    allNodesHold plainNode fv j = true → deleteCommentStep j = (j, 0) := by
  intro fv j hd hp
  cases j with
  | obj l =>
      cases fv with
      | zero => simp [deepLe] at hd
      | succ fvn =>
          obtain ⟨href, hex, hconst, hce, hcm, hcmt, hid, hschema, hunev, hpat,
            hprop, htype, honeOf⟩ := plainNode_spec l (allNodesHold_obj_self plainNode fvn l hp)
          unfold deleteCommentStep
          rw [if_neg (by simp [Json.hasKey, Json.lookup, hcmt])]
  | null => rfl
  | bool b => rfl
  | num n => rfl
  | str s => rfl
  | arr a => rfl

theorem simplifyNonSchemaRef_id (fv : Nat) (doc : Json)
    (hd : deepLe fv doc = true) (hp : allNodesHold plainNode fv doc = true) (F : Nat) :
    simplifyNonSchemaRef F doc = (doc, 0) := by
  unfold simplifyNonSchemaRef visitRefObjects
  refine walkObject_id plainNode _ fv ?_ fv le_rfl doc hd hp F
  intro fv2 l _ _ hp2
  obtain ⟨href, _⟩ := plainNode_spec l (allNodesHold_obj_self plainNode fv2 l hp2)
  by_cases hr : isRef (.obj l) = true
  · rw [if_pos hr]
    rcases href with hfalse | hlen
    · rw [hr] at hfalse
      exact absurd hfalse (by decide)
    · show (if l.length = 1 then ((.obj l : Json), 0)
            else ((.obj (l.filter (fun kv => kv.1 = "$ref")) : Json), 0)) = (.obj l, 0)
      rw [if_pos hlen]
  · rw [if_neg hr]

theorem convertJsonSchemaExamples_id (delOpt : Bool) (fv : Nat) (doc : Json)
    (hd : deepLe fv doc = true) (hp : allNodesHold plainNode fv doc = true) (F : Nat) :
    convertJsonSchemaExamples delOpt F doc = (doc, 0) := by
  unfold convertJsonSchemaExamples
  exact visitSchemaObjects_id plainNode (examplesVisit delOpt F) fv
    (fun fv2 j _ hd2 hp2 => examplesVisit_id delOpt fv2 fv2 le_rfl j hd2 hp2 F)
    fv le_rfl doc hd hp F

theorem convertConstToEnum_id (fv : Nat) (doc : Json)
    (hd : deepLe fv doc = true) (hp : allNodesHold plainNode fv doc = true) (F : Nat) :
    convertConstToEnum F doc = (doc, 0) := by
  unfold convertConstToEnum
  exact visitSchemaObjects_id plainNode (mkSchemaVisitor convertConstToEnumStep F) fv
    (fun fv2 j _ hd2 hp2 => mkSchemaVisitor_id plainNode convertConstToEnumStep
      convertConstToEnumStep_id fv2 fv2 le_rfl j hd2 hp2 F)
    fv le_rfl doc hd hp F

theorem convertNullableTypeArray_id (fv : Nat) (doc : Json)
    (hd : deepLe fv doc = true) (hp : allNodesHold plainNode fv doc = true) (F : Nat) :
    convertNullableTypeArray F doc = (doc, 0) := by
  unfold convertNullableTypeArray
  exact visitSchemaObjects_id plainNode (mkSchemaVisitor convertNullableTypeArrayStep F) fv
    (fun fv2 j _ hd2 hp2 => mkSchemaVisitor_id plainNode convertNullableTypeArrayStep
      convertNullableTypeArrayStep_id fv2 fv2 le_rfl j hd2 hp2 F)
    fv le_rfl doc hd hp F

theorem convertJsonSchemaContentEncoding_id (fv : Nat) (doc : Json)
    (hd : deepLe fv doc = true) (hp : allNodesHold plainNode fv doc = true) (F : Nat) :
    convertJsonSchemaContentEncoding F doc = (doc, 0) := by
  unfold convertJsonSchemaContentEncoding
  exact visitSchemaObjects_id plainNode (mkSchemaVisitor contentEncodingStep F) fv
    (fun fv2 j _ hd2 hp2 => mkSchemaVisitor_id plainNode contentEncodingStep
      contentEncodingStep_id fv2 fv2 le_rfl j hd2 hp2 F)
    fv le_rfl doc hd hp F

theorem convertJsonSchemaContentMediaType_id (fv : Nat) (doc : Json)
    (hd : deepLe fv doc = true) (hp : allNodesHold plainNode fv doc = true) (F : Nat) :
    convertJsonSchemaContentMediaType F doc = (doc, 0) := by
  unfold convertJsonSchemaContentMediaType
  exact visitSchemaObjects_id plainNode (mkSchemaVisitor contentMediaTypeStep F) fv
    (fun fv2 j _ hd2 hp2 => mkSchemaVisitor_id plainNode contentMediaTypeStep
      contentMediaTypeStep_id fv2 fv2 le_rfl j hd2 hp2 F)
    fv le_rfl doc hd hp F

theorem convertNullableOneOf_id (fv : Nat) (doc : Json)
    (hd : deepLe fv doc = true) (hp : allNodesHold plainNode fv doc = true) (F : Nat) :
    convertNullableOneOf F doc = (doc, 0) := by
  unfold convertNullableOneOf
  exact visitSchemaObjects_id plainNode
    (mkSchemaVisitor (convertNullableOneOfStep doc F) F) fv
    (fun fv2 j _ hd2 hp2 => mkSchemaVisitor_id plainNode (convertNullableOneOfStep doc F)
      (convertNullableOneOfStep_id doc F) fv2 fv2 le_rfl j hd2 hp2 F)
    fv le_rfl doc hd hp F

theorem removeUnsupportedSchemaKeywords_id (fv : Nat) (doc : Json)
    (hd : deepLe fv doc = true) (hp : allNodesHold plainNode fv doc = true) (F : Nat) :
    removeUnsupportedSchemaKeywords F doc = (doc, 0) := by
  unfold removeUnsupportedSchemaKeywords
  exact visitSchemaObjects_id plainNode (mkSchemaVisitor removeKeywordsStep F) fv
    (fun fv2 j _ hd2 hp2 => mkSchemaVisitor_id plainNode removeKeywordsStep
      removeKeywordsStep_id fv2 fv2 le_rfl j hd2 hp2 F)
    fv le_rfl doc hd hp F

theorem deleteSchemaComment_id (fv : Nat) (doc : Json)
    (hd : deepLe fv doc = true) (hp : allNodesHold plainNode fv doc = true) (F : Nat) :
    deleteSchemaComment F doc = (doc, 0) := by
  unfold deleteSchemaComment
  exact visitSchemaObjects_id plainNode (mkSchemaVisitor deleteCommentStep F) fv
    (fun fv2 j _ hd2 hp2 => mkSchemaVisitor_id plainNode deleteCommentStep
      deleteCommentStep_id fv2 fv2 le_rfl j hd2 hp2 F)
    fv le_rfl doc hd hp F

theorem convertSchemaRef_false (F : Nat) (doc : Json) :
    convertSchemaRef false F doc = (doc, 0) := rfl

theorem removeWebhooks_id (doc : Json) (h : doc.lookup "webhooks" = none) :
    removeWebhooksObject doc = doc :=
  del_of_lookup_none doc "webhooks" h

theorem rootPlain_parts (doc : Json) (hr : rootPlain doc = true) :
    doc.lookup "webhooks" = none ∧ doc.lookup "$ref" = none
    ∧ (match doc.lookup "info" with
        | some info =>
            match info.lookup "license" with
            | some lic =>
                match lic.lookup "identifier" with
                | some idv => !idv.truthy
                | none => true
            | none => true
        | none => true) = true := by
  unfold rootPlain at hr
  simp only [Bool.and_eq_true] at hr
  exact ⟨Option.isNone_iff_eq_none.mp hr.1.1, Option.isNone_iff_eq_none.mp hr.1.2, hr.2⟩

theorem removeLicense_id (doc : Json) (hr : rootPlain doc = true) :
    removeLicenseIdentifier doc = doc := by
  have h3 := (rootPlain_parts doc hr).2.2
  cases hinfo : doc.lookup "info" with
  | none =>
      unfold removeLicenseIdentifier
      simp [hinfo]
  | some info =>
      cases hlic : info.lookup "license" with
      | none =>
          unfold removeLicenseIdentifier
          simp [hinfo, hlic]
      | some lic =>
          cases hid : lic.lookup "identifier" with
          | none =>
              unfold removeLicenseIdentifier
              simp [hinfo, hlic, hid]
          | some idv =>
              simp only [hinfo, hlic, hid] at h3
              unfold removeLicenseIdentifier
              simp only [hinfo, hlic, hid]
              rw [if_neg]
              simpa using h3

theorem deepLe_setEntry_str (f : Nat) (l : List (String × Json)) (k s : String)
    (hd : deepLe (f+1) (.obj l) = true) :
    deepLe (f+1) (.obj (setEntry l k (.str s))) = true := by
  have hmem := deepLe_obj_mem f l hd
  show (setEntry l k (.str s)).all (fun kv => deepLe f kv.2) = true
  rw [List.all_eq_true]
  intro kv hm
  rcases mem_setEntry k (.str s) l kv hm with h | h
  · exact hmem kv h
  · rw [h]
    exact deepLe_str f s

theorem plainNode_setEntry_openapi (l : List (String × Json))
    (hp : plainNode (.obj l) = true) (hnoref : getEntry l "$ref" = none) :
    plainNode (.obj (setEntry l "openapi" (.str "3.0.3"))) = true := by
  unfold plainNode at hp ⊢
  simp only [Bool.and_eq_true] at hp ⊢
  obtain ⟨⟨⟨⟨⟨⟨⟨⟨⟨⟨⟨⟨_, h2⟩, h3⟩, h4⟩, h5⟩, h6⟩, h7⟩, h8⟩, h9⟩, h10⟩, h11⟩, h12⟩, h13⟩ := hp
  have hne : ∀ k2 : String, "openapi" ≠ k2 →
      getEntry (setEntry l "openapi" (.str "3.0.3")) k2 = getEntry l k2 :=
    fun k2 h => getEntry_setEntry_ne "openapi" k2 _ l h
  refine ⟨⟨⟨⟨⟨⟨⟨⟨⟨⟨⟨⟨?_, ?_⟩, ?_⟩, ?_⟩, ?_⟩, ?_⟩, ?_⟩, ?_⟩, ?_⟩, ?_⟩, ?_⟩, ?_⟩, ?_⟩
  · have hrf : isRef (.obj (setEntry l "openapi" (.str "3.0.3"))) = false := by
      unfold isRef
      rw [lookup_obj, hne "$ref" (by decide), hnoref]
    rw [hrf]
    rfl
  · rw [hne "examples" (by decide)]
    exact h2
  · rw [hne "const" (by decide)]
    exact h3
  · rw [hne "contentEncoding" (by decide)]
    exact h4
  · rw [hne "contentMediaType" (by decide)]
    exact h5
  · rw [hne "$comment" (by decide)]
    exact h6
  · rw [hne "$id" (by decide)]
    exact h7
  · rw [hne "$schema" (by decide)]
    exact h8
  · rw [hne "unevaluatedProperties" (by decide)]
    exact h9
  · rw [hne "patternProperties" (by decide)]
    exact h10
  · rw [hne "propertyNames" (by decide)]
    exact h11
  · rw [hne "type" (by decide)]
    exact h12
  · rw [hne "oneOf" (by decide)]
    exact h13

theorem allNodesHold_setEntry_openapi (f : Nat) (l : List (String × Json))
    (hp : allNodesHold plainNode (f+1) (.obj l) = true)
    (hnoref : getEntry l "$ref" = none) :
    allNodesHold plainNode (f+1) (.obj (setEntry l "openapi" (.str "3.0.3"))) = true := by
  have hself := allNodesHold_obj_self plainNode f l hp
  have hmem := allNodesHold_obj_mem plainNode f l hp
  show (plainNode (.obj (setEntry l "openapi" (.str "3.0.3"))) &&
        (setEntry l "openapi" (.str "3.0.3")).all
          (fun kv => allNodesHold plainNode f kv.2)) = true
  simp only [Bool.and_eq_true]
  refine ⟨plainNode_setEntry_openapi l hself hnoref, ?_⟩
  rw [List.all_eq_true]
  intro kv hm
  rcases mem_setEntry "openapi" (.str "3.0.3") l kv hm with h | h
  · exact hmem kv h
  · rw [h]
    exact allNodesHold_str plainNode f "3.0.3"

theorem rootPlain_set_openapi (doc : Json) (hr : rootPlain doc = true) :
    rootPlain (doc.set "openapi" (.str "3.0.3")) = true := by
  obtain ⟨hw, hrf, hinfo⟩ := rootPlain_parts doc hr
  cases doc with
  | obj l =>
      unfold rootPlain
      rw [lookup_set_ne (Json.obj l) "openapi" "webhooks" (.str "3.0.3") (by decide),
        lookup_set_ne (Json.obj l) "openapi" "$ref" (.str "3.0.3") (by decide),
        lookup_set_ne (Json.obj l) "openapi" "info" (.str "3.0.3") (by decide)]
      simp only [Bool.and_eq_true]
      exact ⟨⟨by rw [hw]; rfl, by rw [hrf]; rfl⟩, hinfo⟩
  | null => exact hr
  | bool b => exact hr
  | num n => exact hr
  | str s => exact hr
  | arr a => exact hr

theorem preds_set_openapi (f : Nat) (doc : Json)
    (hd : deepLe f doc = true) (hp : allNodesHold plainNode f doc = true)
    (hr : rootPlain doc = true) :
    deepLe f (doc.set "openapi" (.str "3.0.3")) = true
    ∧ allNodesHold plainNode f (doc.set "openapi" (.str "3.0.3")) = true
    ∧ rootPlain (doc.set "openapi" (.str "3.0.3")) = true := by
  refine ⟨?_, ?_, rootPlain_set_openapi doc hr⟩
  · cases doc with
    | obj l =>
        cases f with
        | zero => simp [deepLe] at hd
        | succ fn => exact deepLe_setEntry_str fn l "openapi" "3.0.3" hd
    | null => exact hd
    | bool b => exact hd
    | num n => exact hd
    | str s => exact hd
    | arr a => exact hd
  · cases doc with
    | obj l =>
        cases f with
        | zero => simp [deepLe] at hd
        | succ fn =>
            have hnoref : getEntry l "$ref" = none := by
              have := (rootPlain_parts (.obj l) hr).2.1
              rw [lookup_obj] at this
              exact this
            exact allNodesHold_setEntry_openapi fn l hp hnoref
    | null => exact hp
    | bool b => exact hp
    | num n => exact hp
    | str s => exact hp
    | arr a => exact hp

theorem convert_plain_eq (f : Nat) (doc : Json)
    (hd : deepLe f doc = true) (hp : allNodesHold plainNode f doc = true)
    (hr : rootPlain doc = true) :
    convert defaultOptions f doc = (doc.set "openapi" (.str "3.0.3"), 0) := by
  obtain ⟨hd0, hp0, hr0⟩ := preds_set_openapi f doc hd hp hr
  have hw0 := (rootPlain_parts _ hr0).1
  have e1 := removeLicense_id (doc.set "openapi" (.str "3.0.3")) hr0
  have e3 := simplifyNonSchemaRef_id f (doc.set "openapi" (.str "3.0.3")) hd0 hp0 f
  have e5 := convertJsonSchemaExamples_id false f (doc.set "openapi" (.str "3.0.3")) hd0 hp0 f
  have e6 := convertJsonSchemaContentEncoding_id f (doc.set "openapi" (.str "3.0.3")) hd0 hp0 f
  have e7 := convertJsonSchemaContentMediaType_id f (doc.set "openapi" (.str "3.0.3")) hd0 hp0 f
  have e8 := convertConstToEnum_id f (doc.set "openapi" (.str "3.0.3")) hd0 hp0 f
  have e9 := convertNullableTypeArray_id f (doc.set "openapi" (.str "3.0.3")) hd0 hp0 f
  have e10 := convertNullableOneOf_id f (doc.set "openapi" (.str "3.0.3")) hd0 hp0 f
  have e11 := removeWebhooks_id (doc.set "openapi" (.str "3.0.3")) hw0
  have e12 := removeUnsupportedSchemaKeywords_id f (doc.set "openapi" (.str "3.0.3")) hd0 hp0 f
  have e13 := deleteSchemaComment_id f (doc.set "openapi" (.str "3.0.3")) hd0 hp0 f
  unfold convert
  simp only [defaultOptions, convertSchemaRef_false, e1, e3, e5, e6, e7, e8, e9, e10,
    e11, e12, e13, Nat.add_zero, Nat.zero_add]
  rw [if_neg (show ¬(false = true) by decide)]

/-- C9: on a document that is already valid in the 3.0 dialect (no 3.1-only
constructs anywhere, checked by `plainNode` at every mapping node plus the
root conditions), `convert` with the default options returns the input with
only the `openapi` version string forced to `3.0.3` and no errors, and running
`convert` again on that result reproduces it exactly — the pipeline is
idempotent on already-3.0 documents. -/
theorem convert_idempotent (f : Nat) (doc : Json)
    (hd : deepLe f doc = true) (hp : allNodesHold plainNode f doc = true)
    (hr : rootPlain doc = true) :
    convert defaultOptions f doc = (doc.set "openapi" (.str "3.0.3"), 0)
    ∧ convert defaultOptions f (convert defaultOptions f doc).1
        = ((convert defaultOptions f doc).1, 0) := by
  have ha := convert_plain_eq f doc hd hp hr
  refine ⟨ha, ?_⟩
  obtain ⟨hd0, hp0, hr0⟩ := preds_set_openapi f doc hd hp hr
  have hb := convert_plain_eq f (doc.set "openapi" (.str "3.0.3")) hd0 hp0 hr0
  have hfix : (doc.set "openapi" (.str "3.0.3")).set "openapi" (.str "3.0.3")
      = doc.set "openapi" (.str "3.0.3") := by
    cases doc with
    | obj l =>
        show Json.obj (setEntry (setEntry l "openapi" (.str "3.0.3")) "openapi" (.str "3.0.3"))
          = .obj (setEntry l "openapi" (.str "3.0.3"))
        rw [setEntry_of_getEntry _ _ _ (getEntry_setEntry_self "openapi" (.str "3.0.3") l)]
    | null => rfl
    | bool b => rfl
    | num n => rfl
    | str s => rfl
    | arr a => rfl
  rw [ha]
  show convert defaultOptions f (doc.set "openapi" (.str "3.0.3"))
      = (doc.set "openapi" (.str "3.0.3"), 0)
  rw [hb, hfix]

theorem convert_idempotent_witness :
    deepLe 12 c9PlainDoc = true ∧ allNodesHold plainNode 12 c9PlainDoc = true
    ∧ rootPlain c9PlainDoc = true
    ∧ (convert defaultOptions 12 c9PlainDoc = (c9PlainDoc.set "openapi" (.str "3.0.3"), 0)
       ∧ convert defaultOptions 12 (convert defaultOptions 12 c9PlainDoc).1
          = ((convert defaultOptions 12 c9PlainDoc).1, 0)) :=
  ⟨by decide, by decide, by decide,
    convert_idempotent 12 c9PlainDoc (by decide) (by decide) (by decide)⟩
